import Mathlib

/-!
# Peer discovery loop of `FetchSwarmService`, `BigUnsigned` and `gemv_n_vector`

A shallow embedding of `FetchSwarmService::TrackPeers`
(`examples/ledger/peer-to-peer-v2/swarm_service.hpp`), of the constructor and
of the lifecycle handlers it installs, followed by the properties of one
iteration of the loop; of the operators of `crypto::BigUnsigned`
(`include/crypto/bignumber.hpp`); and a model of the routine exercised by
`libs/math/tests/math/linalg/blas/gemv_n_vector.cpp`.

Conventions of the embedding of the discovery loop

* `std::set<ByteArray>` is a `Finset`: `TrackPeers` only calls `insert`,
  `find` and `size` on it, which are `insert`, membership and `card`.
* `std::map<uint64_t, NodeDetails>` is the list of its `(key, value)` pairs in
  iteration order; `TrackPeers` only reads the values.
* `std::random_shuffle` is a function `shuffle` on lists; the properties that
  need it assume that it returns a permutation of its argument.
* `EntryPoint::NODE_SWARM` is declared outside this file's source, so it is a
  parameter `NODE_SWARM` (a bit mask); `x & NODE_SWARM` in a condition is
  `x &&& NODE_SWARM ≠ 0`.
* The effects of an iteration are the `Bootstrap(host, port)` calls in the
  order they are issued and the number of tasks posted to the `io_service`.
* The counter `i` of the attempt loop is a `std::size_t`; it starts at the size
  of a set held in memory and the loop leaves as soon as it exceeds `5`, so it
  never wraps and is a `Nat` here.

Conventions of the embedding of `BigUnsigned`

* A `BigUnsigned` is the list of its bytes, index 0 first; a byte is a `Nat`,
  stores into a `uint8_t` are taken modulo 256, and the properties assume bytes
  below 256 (`well_formed`).
* `operator[]` outside the array is a fault, as is the branch `TODO_FAIL`; an
  operation returns `Except.ok` exactly when it meets neither.
* Loops over an index are recursions on the counter or on the number of rounds
  left; the `while` loop of `operator++` takes fuel, and `size + 1` is enough.
-/

namespace fetch

/-- The type `fetch::byte_array::ByteArray`, compared by value: its bytes. -/
abbrev ByteArray := List Nat

/-- The struct `fetch::protocols::EntryPoint`. -/
structure EntryPoint where
  host : String
  shard : Nat
  port : Nat
  http_port : Nat
  configuration : Nat
  deriving DecidableEq, Repr

/-- The struct `fetch::protocols::NodeDetails`. -/
structure NodeDetails where
  public_key : ByteArray
  default_port : Nat
  default_http_port : Nat
  entry_points : List EntryPoint
  deriving DecidableEq, Repr

/-- The state of a `FetchSwarmService` that `TrackPeers` reads: its own
details, the three collections of the swarm protocol and the `running_` flag. -/
structure FetchSwarmService where
  details_ : NodeDetails
  server_details : List (Nat × NodeDetails)
  client_details : List (Nat × NodeDetails)
  suggestions : List NodeDetails
  running_ : Bool
  deriving DecidableEq, Repr

/-- What one task run on the `io_service` does to the outside: the
`Bootstrap(host, port)` calls, in order, and how many `TrackPeers` tasks it
posts. -/
structure Effects where
  bootstrap : List (String × Nat)
  posted : Nat
  deriving DecidableEq, Repr

/-- The loop `for (auto const &d : details) public_keys.insert(d.second.public_key)`
of lines 90-93 and 98-101. -/
def insert_keys (public_keys : Finset ByteArray) (details : List (Nat × NodeDetails)) :
    Finset ByteArray :=
  details.foldl (fun acc d => insert d.2.public_key acc) public_keys

/-- Lines 84-102 of `TrackPeers`: the set `public_keys`. -/
def public_keys (s : FetchSwarmService) : Finset ByteArray :=
  let public_keys : Finset ByteArray := insert s.details_.public_key ∅
  let public_keys := insert_keys public_keys s.server_details
  let public_keys := insert_keys public_keys s.client_details
  public_keys

/-- The inner loop of lines 111-117: `push_back` of the entry points whose
configuration has `NODE_SWARM`. -/
def push_swarm (NODE_SWARM : Nat) (swarm_entries : List EntryPoint)
    (entry_points : List EntryPoint) : List EntryPoint :=
  entry_points.foldl
    (fun acc e => if e.configuration &&& NODE_SWARM ≠ 0 then acc ++ [e] else acc)
    swarm_entries

/-- The callback of lines 106-120, run on the suggestions with the captured
copy of `public_keys`, starting from the list `swarm_entries`. -/
def collect (NODE_SWARM : Nat) (public_keys : Finset ByteArray)
    (swarm_entries : List EntryPoint) (details : List NodeDetails) : List EntryPoint :=
  details.foldl
    (fun acc d => if d.public_key ∉ public_keys then push_swarm NODE_SWARM acc d.entry_points
      else acc)
    swarm_entries

/-- Lines 105-120 of `TrackPeers`: the vector `swarm_entries` before it is
shuffled. -/
def swarm_entries (NODE_SWARM : Nat) (s : FetchSwarmService) : List EntryPoint :=
  collect NODE_SWARM (public_keys s) [] s.suggestions

/-- The loop of lines 127-136 with the counter at `i`: the entries `e` for which
`Bootstrap(e.host, e.port)` is called, in order. After the call the counter is
incremented and the loop is left when it exceeds `desired_connectivity_`. -/
def attempts (desired_connectivity_ : Nat) : Nat → List EntryPoint → List EntryPoint
  | _, [] => []
  | i, e :: rest =>
    e :: (if i + 1 > desired_connectivity_ then [] else attempts desired_connectivity_ (i + 1) rest)

/-- Lines 122-136 of `TrackPeers`: the entries Bootstrap is called for, with
`i = public_keys.size()` and `desired_connectivity_ = 5`. -/
def targets (NODE_SWARM : Nat) (shuffle : List EntryPoint → List EntryPoint)
    (s : FetchSwarmService) : List EntryPoint :=
  let swarm_entries := shuffle (swarm_entries NODE_SWARM s)
  let i := (public_keys s).card
  let desired_connectivity_ := 5
  attempts desired_connectivity_ i swarm_entries

/-- One run of `TrackPeers` (lines 79-144), after the sleep of line 83. -/
def TrackPeers (NODE_SWARM : Nat) (shuffle : List EntryPoint → List EntryPoint)
    (s : FetchSwarmService) : Effects :=
  { bootstrap := (targets NODE_SWARM shuffle s).map (fun e => (e.host, e.port))
    posted := if s.running_ then 1 else 0 }

/-- The handler of line 54-56, `OnBeforeStop`: `running_ = false`. -/
def stop_event (s : FetchSwarmService) : FetchSwarmService :=
  { s with running_ := false }

/-- The handler of lines 47-52, `OnAfterStart`: `running_ = true`; it also posts
one `TrackPeers` task (see `start_posted`). -/
def start_event (s : FetchSwarmService) : FetchSwarmService :=
  { s with running_ := true }

/-- The number of `TrackPeers` tasks the start handler posts (lines 49-51). -/
def start_posted : Nat := 1

/-- The candidate list in the words of the specification (4.3, step 3): for
every NodeDetails of the suggestions whose public key is not in the
known-identity set `K`, in order, every EntryPoint of it whose configuration
has the `NODE_SWARM` bit, in order. -/
def candidate_list_spec (NODE_SWARM : Nat) (K : Finset ByteArray) (S : List NodeDetails) :
    List EntryPoint :=
  (S.filter (fun d => d.public_key ∉ K)).flatMap
    (fun d => d.entry_points.filter (fun e => e.configuration &&& NODE_SWARM ≠ 0))

/-- The `io_service` queue restricted to the discovery loop: with `pending`
posted `TrackPeers` tasks, run at most `fuel` of them one after the other; the
`n`-th task to run finds the service in state `env n`, and what it posts is
added to the queue. The result is the effects of the tasks that ran. -/
def run_queue (NODE_SWARM : Nat) (shuffle : List EntryPoint → List EntryPoint)
    (env : Nat → FetchSwarmService) : Nat → Nat → Nat → List Effects
  | 0, _, _ => []
  | _ + 1, _, 0 => []
  | fuel + 1, n, pending + 1 =>
    let eff := TrackPeers NODE_SWARM shuffle (env n)
    eff :: run_queue NODE_SWARM shuffle env fuel (n + 1) (pending + eff.posted)

/-! ## Concrete states used in the examples -/

/-- A value of the `NODE_SWARM` mask for the examples: bit 16. -/
def swarm_bit : Nat := 65536

/-- An entry point at `host:port` with the given configuration. -/
def entry_at (host : String) (port configuration : Nat) : EntryPoint :=
  { host := host, shard := 0, port := port, http_port := 8080, configuration := configuration }

/-- The details of a node with the one-byte key `k` and the given entry points. -/
def node (k : Nat) (entry_points : List EntryPoint) : NodeDetails :=
  { public_key := [k], default_port := 1337, default_http_port := 8080,
    entry_points := entry_points }

/-- A node with key 0 connected to five peers with keys 1 to 5 (three inbound,
two outbound), to which a peer with key 6 is suggested. -/
def six_known : FetchSwarmService :=
  { details_ := node 0 [entry_at "127.0.0.1" 1337 swarm_bit]
    server_details := [(1, node 1 []), (2, node 2 []), (3, node 3 [])]
    client_details := [(4, node 4 []), (5, node 5 [])]
    suggestions := [node 6 [entry_at "10.0.0.6" 1337 swarm_bit]]
    running_ := true }

/-- A node with key 0 to which a peer with key 1 is connected inbound; the
suggestions hold the details of that peer and of an unknown peer with key 7,
both advertising the same entry point `10.0.0.1:1337`. -/
def shared_entry : FetchSwarmService :=
  { details_ := node 0 [entry_at "127.0.0.1" 1337 swarm_bit]
    server_details := [(1, node 1 [entry_at "10.0.0.1" 1337 swarm_bit])]
    client_details := []
    suggestions := [node 1 [entry_at "10.0.0.1" 1337 swarm_bit],
      node 7 [entry_at "10.0.0.1" 1337 swarm_bit]]
    running_ := true }

/-- A node with key 0 connected to the peers 1 and 2; the suggestions hold its
own details, those of peer 1, and those of the unknown peers 7 (three entry
points, one without `NODE_SWARM`) and 8. -/
def mixed_suggestions : FetchSwarmService :=
  { details_ := node 0 [entry_at "127.0.0.1" 1337 swarm_bit]
    server_details := [(1, node 1 [])]
    client_details := [(2, node 2 []), (3, node 1 [])]
    suggestions := [node 0 [entry_at "127.0.0.1" 1337 swarm_bit],
      node 7 [entry_at "10.0.0.7" 1 swarm_bit, entry_at "10.0.0.7" 2 0,
        entry_at "10.0.0.7" 3 (swarm_bit + 1)],
      node 1 [entry_at "10.0.0.1" 4 swarm_bit],
      node 8 [entry_at "10.0.0.8" 5 swarm_bit]]
    running_ := false }

/-- The scenario of a node with key 0 connected to the peers 1 to 4, to which
peer 5 and the connected peer 1 are suggested, one entry point each. -/
def scenario_five_known : FetchSwarmService :=
  { details_ := node 0 [entry_at "127.0.0.1" 1337 swarm_bit]
    server_details := [(10, node 1 []), (11, node 2 [])]
    client_details := [(12, node 3 []), (13, node 4 []), (14, node 1 [])]
    suggestions := [node 5 [entry_at "10.0.0.5" 1337 swarm_bit],
      node 1 [entry_at "10.0.0.1" 1337 swarm_bit]]
    running_ := true }

/-- An unknown peer with key 9 that appears twice in the suggestions of a node
connected to one peer. -/
def twice_suggested : FetchSwarmService :=
  { details_ := node 0 [entry_at "127.0.0.1" 1337 swarm_bit]
    server_details := [(1, node 1 [])]
    client_details := []
    suggestions := [node 9 [entry_at "10.0.0.9" 1337 swarm_bit],
      node 9 [entry_at "10.0.0.9" 1337 swarm_bit]]
    running_ := true }

/-! ## The constructor and the steps of a task -/

/-- Modelled from the spec: `SharedNodeDetails::AddEntryPoint` is declared
outside the sources at hand; the entry points of a NodeDetails are an ordered
sequence that `AddEntryPoint` appends to. -/
def AddEntryPoint (details : NodeDetails) (e : EntryPoint) : NodeDetails :=
  { details with entry_points := details.entry_points ++ [e] }

/-- The constructor `FetchSwarmService::FetchSwarmService` (lines 18-72), as far
as the state read by `TrackPeers` goes. `details` is the default-constructed
value of the member `details_`; the three collections of the swarm protocol are
created empty. The handlers of lines 47-56 are registered, not run, and nothing
is posted to the `io_service`. -/
def FetchSwarmService.construct (NODE_SWARM : Nat) (details : NodeDetails)
    (port http_port : Nat) (pk : ByteArray) : FetchSwarmService × Effects :=
  let details := { details with
    public_key := pk, default_port := port, default_http_port := http_port }
  let e : EntryPoint :=
    { host := "127.0.0.1"
      shard := 0
      port := details.default_port
      http_port := details.default_http_port
      configuration := NODE_SWARM }
  let details := AddEntryPoint details e
  ({ details_ := details
     server_details := []
     client_details := []
     suggestions := []
     running_ := false },
   { bootstrap := [], posted := 0 })

/-- A step of a task run by the worker of the `io_service`: a sleep of the
running thread (`std::this_thread::sleep_for`), a call of `Bootstrap`, or a
`post` of a further `TrackPeers` task, which queues it at once. -/
inductive Action where
  | sleep_for (milliseconds : Nat)
  | Bootstrap (host : String) (port : Nat)
  | post_TrackPeers
  deriving DecidableEq, Repr

/-- The steps of one `TrackPeers` task in the order of the source: the sleep of
line 83, the `Bootstrap` calls of line 129 and the `post` of lines 139-141. -/
def TrackPeers_steps (NODE_SWARM : Nat) (shuffle : List EntryPoint → List EntryPoint)
    (s : FetchSwarmService) : List Action :=
  [Action.sleep_for 2000]
    ++ (targets NODE_SWARM shuffle s).map (fun e => Action.Bootstrap e.host e.port)
    ++ (if s.running_ then [Action.post_TrackPeers] else [])

/-! ## `BigUnsigned` (`include/crypto/bignumber.hpp`) -/

/-- The class `crypto::BigUnsigned`: the bytes of the `BasicByteArray` it
extends, index 0 first. Each byte is a `uint8_t`, see `well_formed`. -/
abbrev BigUnsigned := List Nat

/-- Every byte of a `BigUnsigned` is a `uint8_t`. -/
def well_formed (x : BigUnsigned) : Prop := ∀ b ∈ x, b < 256

instance well_formed_decidable (x : BigUnsigned) : Decidable (well_formed x) := by
  unfold well_formed
  infer_instance

/-- The number of values of a `std::size_t`. -/
def size_t_range : Nat := 2 ^ 64

/-- How an operation on a `BigUnsigned` can go wrong: an `operator[]` outside
the array, the branch `TODO_FAIL` of `operator++`, or a loop of the embedding
that was given too little fuel. -/
inductive Fault where
  | out_of_range (index : Nat)
  | todo_fail (message : String)
  | out_of_fuel
  deriving DecidableEq, Repr

/-- A read `super_type::operator[](i)`. -/
def read (x : BigUnsigned) (i : Nat) : Except Fault Nat :=
  match x[i]? with
  | some b => pure b
  | none => throw (Fault.out_of_range i)

/-- A write `super_type::operator[](i) = v`. -/
def write (x : BigUnsigned) (i v : Nat) : Except Fault BigUnsigned :=
  if i < x.length then pure (x.set i v) else throw (Fault.out_of_range i)

/-- The unsigned integer a `BigUnsigned` encodes, little-endian. -/
def value : BigUnsigned → Nat
  | [] => 0
  | b :: rest => b + 256 * value rest

/-- The loop of `TrimmedSize` (lines 173-175) with `ret` at the given value. -/
def TrimmedSize_loop (x : BigUnsigned) : Nat → Except Fault Nat
  | 0 => pure 0
  | ret + 1 => do
    let b ← read x ret
    if b = 0 then TrimmedSize_loop x ret else pure (ret + 1)

/-- The method `BigUnsigned::TrimmedSize` (lines 171-177). -/
def TrimmedSize (x : BigUnsigned) : Except Fault Nat :=
  TrimmedSize_loop x x.length

/-- The loop of `operator<` (lines 160-162) with `s1` at the given value; the
result is the value of `s1` when the loop is left. -/
def less_loop (x other : BigUnsigned) : Nat → Except Fault Nat
  | 0 => pure 0
  | s1 + 1 => do
    let a ← read x (s1 + 1)
    let b ← read other (s1 + 1)
    if a = b then less_loop x other s1 else pure (s1 + 1)

/-- The operator `BigUnsigned::operator<` (lines 150-165). -/
def less (x other : BigUnsigned) : Except Fault Bool := do
  let s1 ← TrimmedSize x
  let s2 ← TrimmedSize other
  if s1 ≠ s2 then
    pure (decide (s1 < s2))
  else if s1 = 0 then
    pure false
  else do
    let s1 ← less_loop x other (s1 - 1)
    let a ← read x s1
    let b ← read other s1
    pure (decide (a < b))

/-- The operator `BigUnsigned::operator>` (lines 167-169). -/
def greater (x other : BigUnsigned) : Except Fault Bool :=
  less other x

/-- The loop of `operator++` (lines 106-114) with the counter at `i` and the
byte just written in `val`. `TODO_FAIL` is declared outside the sources; the
branch that reaches it ends the operation with a fault. -/
def increment_loop : Nat → BigUnsigned → Nat → Nat → Except Fault BigUnsigned
  | 0, _, _, _ => throw Fault.out_of_fuel
  | fuel + 1, x, i, val =>
    if val = 0 then
      if i + 1 = x.length then
        throw (Fault.todo_fail "Throw error, size too little")
      else do
        let b ← read x (i + 1)
        let x ← write x (i + 1) ((b + 1) % 256)
        increment_loop fuel x (i + 1) ((b + 1) % 256)
    else
      pure x

/-- The operator `BigUnsigned::operator++` (lines 99-117). The loop moves the
counter up by one in every round and ends at the size at the latest, so
`size + 1` rounds are enough. -/
def increment (x : BigUnsigned) : Except Fault BigUnsigned := do
  let b ← read x 0
  let x ← write x 0 ((b + 1) % 256)
  increment_loop (x.length + 1) x 0 ((b + 1) % 256)

/-- The first loop of `operator<<=` (lines 125-128) with the counter at `i`. -/
def shift_move (bytes : Nat) : Nat → BigUnsigned → Except Fault BigUnsigned
  | 0, x => pure x
  | i + 1, x => do
    let b ← read x i
    let x ← write x (i + bytes) b
    shift_move bytes i x

/-- The second loop of `operator<<=` (lines 130-132) with the counter at `i` and
`remaining = bytes - i` rounds to go. -/
def shift_zero : Nat → Nat → BigUnsigned → Except Fault BigUnsigned
  | 0, _, x => pure x
  | remaining + 1, i, x => do
    let x ← write x i 0
    shift_zero remaining (i + 1) x

/-- The third loop of `operator<<=` (lines 136-141) with the counter at `i`,
`remaining = size() - i` rounds to go and the given `carry`. Both assignments
store into a `uint8_t`. -/
def shift_bits (bits nbits : Nat) : Nat → Nat → Nat → BigUnsigned → Except Fault BigUnsigned
  | 0, _, _, x => pure x
  | remaining + 1, i, carry, x => do
    let val ← read x i
    let x ← write x i (((val <<< bits) ||| carry) % 256)
    shift_bits bits nbits remaining (i + 1) ((val >>> nbits) % 256) x

/-- The operator `BigUnsigned::operator<<=` (lines 119-144); `old` is computed
in `std::size_t`. -/
def shift_left_assign (x : BigUnsigned) (n : Nat) : Except Fault BigUnsigned := do
  let bits := n &&& 7
  let bytes := n >>> 3
  let old := (x.length + size_t_range - bytes) % size_t_range
  let x ← shift_move bytes old x
  let x ← shift_zero bytes 0 x
  let nbits := 8 - bits
  shift_bits bits nbits x.length 0 0 x

/-- The bytes that the third loop of `operator<<=` leaves in place of the bytes
`l` when it reaches them with the given `carry`: the closed form of
`shift_bits`, used to state what the loop computes. -/
def shifted_bytes (bits nbits : Nat) : Nat → List Nat → List Nat
  | _, [] => []
  | carry, val :: rest =>
    (((val <<< bits) ||| carry) % 256) :: shifted_bytes bits nbits ((val >>> nbits) % 256) rest

/-! ## `gemv_n_vector` (`libs/math/tests/math/linalg/blas/gemv_n_vector.cpp`) -/

/-- Modelled from the spec: the routine under test is declared in
`math/linalg/blas/gemv_n.hpp`, outside the sources at hand, so the positions it
uses in a strided vector follow the statement of the property: element `i` of
`count` elements is at `i * stride` for a positive stride and at
`(count - 1 - i) * |stride|` for a negative one. -/
def stride_position (count : Nat) (stride : Int) (i : Nat) : Nat :=
  if 0 < stride then i * stride.natAbs else (count - 1 - i) * stride.natAbs

/-- Modelled from the spec: the product of one row of `A` with the strided
vector `x`, `sum_j row[j] * x[q(j)]`, over exact arithmetic; the routine itself
is outside the sources at hand. -/
def gemv_row (row x : List ℚ) (n : Int) : ℚ :=
  ((List.range row.length).map
    (fun j => row.getD j 0 * x.getD (stride_position row.length n j) 0)).sum

/-- Modelled from the spec: the routine `gemv_n_vector` that the tests declare
as `Blas<double, Signature(_y <= _alpha, _A, _x, _n, _beta, _y, _m),
Computes(_y = _alpha * _A * _x + _beta * _y)>`; its implementation
(`math/linalg/blas/gemv_n.hpp`) is outside the sources at hand. Row after row it
stores `alpha * (row i of A) * x + beta * y[p(i)]` at `p(i)` of `y`, over exact
arithmetic. The matrix is the list of its rows. -/
def gemv_n_vector (alpha : ℚ) (A : List (List ℚ)) (x : List ℚ) (n : Int) (beta : ℚ)
    (y : List ℚ) (m : Int) : List ℚ :=
  (List.range A.length).foldl
    (fun acc i => acc.set (stride_position A.length m i)
      (alpha * gemv_row (A.getD i []) x n + beta * y.getD (stride_position A.length m i) 0))
    y

/-- Modelled from the spec: `ShapeLessArray::AllClose` is declared outside the
sources at hand; two vectors are close when they have the same length and their
elements differ by at most the tolerance. -/
def AllClose (tolerance : ℚ) (a b : List ℚ) : Bool :=
  decide (a.length = b.length) && (a.zip b).all (fun p => decide (|p.1 - p.2| ≤ tolerance))

/-- The data of one test of `gemv_n_vector.cpp`: the arguments of the call and
the reference vector `refy`. -/
structure GemvTest where
  alpha : ℚ
  A : List (List ℚ)
  x : List ℚ
  n : Int
  beta : ℚ
  y : List ℚ
  m : Int
  refy : List ℚ

/-- The call `gemv_n_vector(alpha, A, x, n, beta, y, m)` of a test: the vector
`y` after it. -/
def GemvTest.run (t : GemvTest) : List ℚ :=
  gemv_n_vector t.alpha t.A t.x t.n t.beta t.y t.m

/-- The arguments and the reference vector of the test `blas_gemv_n_vector1`
(line 12 of `gemv_n_vector.cpp`). -/
def blas_gemv_n_vector1 : GemvTest :=
  { alpha := 1
    A :=
     [[0.3745401188473625, 0.9507143064099162],
      [0.7319939418114051, 0.5986584841970366],
      [0.15601864044243652, 0.15599452033620265]]
    x :=
      [0.05808361216819946, 0.8661761457749352]
    n := 1
    beta := 1
    y :=
      [0.6011150117432088, 0.7080725777960455, 0.020584494295802447]
    m := 1
    refy :=
      [1.4463557084070022, 1.2691331284989449, 0.16476535288509245] }

/-- The arguments and the reference vector of the test `blas_gemv_n_vector2`
(line 48 of `gemv_n_vector.cpp`). -/
def blas_gemv_n_vector2 : GemvTest :=
  { alpha := 0
    A :=
     [[0.9699098521619943, 0.8324426408004217],
      [0.21233911067827616, 0.18182496720710062],
      [0.18340450985343382, 0.3042422429595377]]
    x :=
      [0.5247564316322378, 0.43194501864211576]
    n := 1
    beta := 1
    y :=
      [0.2912291401980419, 0.6118528947223795, 0.13949386065204183]
    m := 1
    refy :=
      [0.2912291401980419, 0.6118528947223795, 0.13949386065204183] }

/-- The arguments and the reference vector of the test `blas_gemv_n_vector3`
(line 84 of `gemv_n_vector.cpp`). -/
def blas_gemv_n_vector3 : GemvTest :=
  { alpha := 0.7512359527334447
    A :=
     [[0.29214464853521815, 0.3663618432936917, 0.45606998421703593, 0.7851759613930136],
      [0.19967378215835974, 0.5142344384136116, 0.5924145688620425, 0.046450412719997725],
      [0.6075448519014384, 0.17052412368729153, 0.06505159298527952, 0.9488855372533332]]
    x :=
      [0.9656320330745594, 0.8083973481164611, 0.3046137691733707, 0.09767211400638387]
    n := 1
    beta := 0.10776027386645548
    y :=
      [0.6842330265121569, 0.4401524937396013, 0.12203823484477883]
    m := 1
    refy :=
      [0.6701282176684062, 0.6435454721861779, 0.64194384540329] }

/-- The arguments and the reference vector of the test `blas_gemv_n_vector4`
(line 120 of `gemv_n_vector.cpp`). -/
def blas_gemv_n_vector4 : GemvTest :=
  { alpha := 0
    A :=
     [[0.4951769101112702, 0.034388521115218396, 0.9093204020787821, 0.2587799816000169],
      [0.662522284353982, 0.31171107608941095, 0.5200680211778108, 0.5467102793432796],
      [0.18485445552552704, 0.9695846277645586, 0.7751328233611146, 0.9394989415641891]]
    x :=
      [0.8948273504276488, 0.5978999788110851, 0.9218742350231168, 0.0884925020519195,
       0.1959828624191452, 0.045227288910538066, 0.32533033076326434, 0.388677289689482]
    n := 2
    beta := 1
    y :=
      [0.2713490317738959, 0.8287375091519293, 0.3567533266935893, 0.28093450968738076,
       0.5426960831582485, 0.14092422497476265, 0.8021969807540397, 0.07455064367977082,
       0.9868869366005173]
    m := 3
    refy :=
      [0.2713490317738959, 0.8287375091519293, 0.3567533266935893, 0.28093450968738076,
       0.5426960831582485, 0.14092422497476265, 0.8021969807540397, 0.07455064367977082,
       0.9868869366005173] }

/-- The arguments and the reference vector of the test `blas_gemv_n_vector5`
(line 156 of `gemv_n_vector.cpp`). -/
def blas_gemv_n_vector5 : GemvTest :=
  { alpha := 0.6364757407781164
    A :=
     [[0.7722447692966574, 0.1987156815341724, 0.005522117123602399, 0.8154614284548342],
      [0.7068573438476171, 0.7290071680409873, 0.7712703466859457, 0.07404465173409036],
      [0.3584657285442726, 0.11586905952512971, 0.8631034258755935, 0.6232981268275579]]
    x :=
      [0.3308980248526492, 0.06355835028602363, 0.3109823217156622, 0.32518332202674705,
       0.7296061783380641, 0.6375574713552131, 0.8872127425763265, 0.4722149251619493]
    n := 2
    beta := 0.20755232149175917
    y :=
      [0.1195942459383017, 0.713244787222995, 0.7607850486168974, 0.5612771975694962,
       0.770967179954561, 0.49379559636439074, 0.5227328293819941, 0.42754101835854963,
       0.02541912674409519]
    m := 3
    refy :=
      [0.689842515308893, 0.713244787222995, 0.7607850486168974, 0.809631111889964,
       0.770967179954561, 0.49379559636439074, 0.9596995415382418, 0.42754101835854963,
       0.02541912674409519] }

/-- The arguments and the reference vector of the test `blas_gemv_n_vector6`
(line 192 of `gemv_n_vector.cpp`). -/
def blas_gemv_n_vector6 : GemvTest :=
  { alpha := 0.7696456800174859
    A :=
     [[0.10789142699330445, 0.03142918568673425, 0.6364104112637804, 0.3143559810763267],
      [0.5085706911647028, 0.907566473926093, 0.24929222914887494, 0.41038292303562973],
      [0.7555511385430487, 0.22879816549162246, 0.07697990982879299, 0.289751452913768]]
    x :=
      [0.16122128725400442, 0.9296976523425731, 0.808120379564417, 0.6334037565104235,
       0.8714605901877177, 0.8036720768991145, 0.18657005888603584, 0.8925589984899778]
    n := -2
    beta := 0.31559011380798885
    y :=
      [0.5393422419156507, 0.8074401551640625, 0.8960912999234932, 0.3180034749718639,
       0.11005192452767676, 0.22793516254194168, 0.4271077886262563, 0.8180147659224931,
       0.8607305832563434]
    m := -3
    refy :=
      [0.5159935969227561, 0.8074401551640625, 0.8960912999234932, 0.9880781415843992,
       0.11005192452767676, 0.22793516254194168, 0.6061956694878249, 0.8180147659224931,
       0.8607305832563434] }

/-! ## Lemmas on the loops -/

theorem insert_keys_eq (K : Finset ByteArray) (details : List (Nat × NodeDetails)) :
    insert_keys K details = K ∪ (details.map (fun d => d.2.public_key)).toFinset := by
  induction details generalizing K with
  | nil => simp [insert_keys]
  | cons d rest ih =>
    have h := ih (insert d.2.public_key K)
    simp only [insert_keys, List.foldl_cons] at h ⊢
    rw [h]
    ext x
    simp only [Finset.mem_union, Finset.mem_insert, List.map_cons, List.toFinset_cons]
    tauto

theorem public_keys_eq (s : FetchSwarmService) :
    public_keys s = {s.details_.public_key}
      ∪ (s.server_details.map (fun d => d.2.public_key)).toFinset
      ∪ (s.client_details.map (fun d => d.2.public_key)).toFinset := by
  simp only [public_keys, insert_keys_eq]
  rfl

theorem push_swarm_eq (NODE_SWARM : Nat) (acc entry_points : List EntryPoint) :
    push_swarm NODE_SWARM acc entry_points
      = acc ++ entry_points.filter (fun e => e.configuration &&& NODE_SWARM ≠ 0) := by
  induction entry_points generalizing acc with
  | nil => simp [push_swarm]
  | cons e rest ih =>
    have h := fun a => ih a
    simp only [push_swarm, List.foldl_cons] at h ⊢
    by_cases hc : e.configuration &&& NODE_SWARM ≠ 0
    · rw [if_pos hc, h, List.filter_cons_of_pos (by simpa using hc)]
      simp
    · rw [if_neg hc, h, List.filter_cons_of_neg (by simpa using hc)]

theorem collect_eq (NODE_SWARM : Nat) (K : Finset ByteArray) (acc : List EntryPoint)
    (S : List NodeDetails) :
    collect NODE_SWARM K acc S = acc ++ candidate_list_spec NODE_SWARM K S := by
  induction S generalizing acc with
  | nil => simp [collect, candidate_list_spec]
  | cons d rest ih =>
    have h := fun a => ih a
    simp only [collect, List.foldl_cons] at h ⊢
    by_cases hk : d.public_key ∉ K
    · rw [if_pos hk, h, push_swarm_eq]
      simp [candidate_list_spec, List.filter_cons_of_pos, hk]
    · rw [if_neg hk, h]
      simp only [not_not] at hk
      simp [candidate_list_spec, hk]

theorem attempts_eq_take (d : Nat) (c : List EntryPoint) (i : Nat) :
    attempts d i c = c.take (max 1 (d + 1 - i)) := by
  induction c generalizing i with
  | nil => simp [attempts]
  | cons e rest ih =>
    by_cases h : i + 1 > d
    · have h1 : max 1 (d + 1 - i) = 1 := by omega
      simp [attempts, h, h1]
    · have h1 : max 1 (d + 1 - i) = max 1 (d + 1 - (i + 1)) + 1 := by omega
      simp only [attempts, if_neg h, ih, h1, List.take_succ_cons]

theorem targets_eq_take (NODE_SWARM : Nat) (shuffle : List EntryPoint → List EntryPoint)
    (s : FetchSwarmService) :
    targets NODE_SWARM shuffle s
      = (shuffle (swarm_entries NODE_SWARM s)).take (max 1 (5 + 1 - (public_keys s).card)) := by
  simp only [targets, attempts_eq_take]

theorem swarm_entries_eq (NODE_SWARM : Nat) (s : FetchSwarmService) :
    swarm_entries NODE_SWARM s = candidate_list_spec NODE_SWARM (public_keys s) s.suggestions := by
  simp [swarm_entries, collect_eq]

theorem public_keys_card_pos (s : FetchSwarmService) : 1 ≤ (public_keys s).card := by
  rw [public_keys_eq]
  apply Finset.card_pos.mpr
  exact ⟨s.details_.public_key, by simp⟩

theorem mem_public_keys (s : FetchSwarmService) (x : ByteArray) :
    x ∈ public_keys s ↔
      (x = s.details_.public_key ∨ (∃ d ∈ s.server_details, d.2.public_key = x)
        ∨ (∃ d ∈ s.client_details, d.2.public_key = x)) := by
  rw [public_keys_eq]
  simp only [Finset.mem_union, Finset.mem_singleton, List.mem_toFinset, List.mem_map,
    or_assoc]

theorem public_keys_suggestions (s : FetchSwarmService) (S : List NodeDetails) :
    public_keys { s with suggestions := S } = public_keys s := rfl

theorem mem_candidate_list_spec (NODE_SWARM : Nat) (K : Finset ByteArray)
    (S : List NodeDetails) (e : EntryPoint) :
    e ∈ candidate_list_spec NODE_SWARM K S ↔
      ∃ d ∈ S, d.public_key ∉ K ∧ e ∈ d.entry_points ∧ e.configuration &&& NODE_SWARM ≠ 0 := by
  simp only [candidate_list_spec, List.mem_flatMap, List.mem_filter, decide_eq_true_eq]
  constructor
  · rintro ⟨d, ⟨hd, hk⟩, he, hc⟩
    exact ⟨d, hd, hk, he, hc⟩
  · rintro ⟨d, hd, hk, he, hc⟩
    exact ⟨d, ⟨hd, hk⟩, he, hc⟩

theorem candidate_list_spec_filter (NODE_SWARM : Nat) (K : Finset ByteArray)
    (S : List NodeDetails) (x : ByteArray) (hx : x ∈ K) :
    candidate_list_spec NODE_SWARM K (S.filter (fun d => d.public_key ≠ x))
      = candidate_list_spec NODE_SWARM K S := by
  unfold candidate_list_spec
  rw [List.filter_filter]
  congr 1
  apply List.filter_congr
  intro d _
  by_cases hd : d.public_key = x
  · subst hd
    simp [hx]
  · simp [hd]

theorem swarm_entries_filter (NODE_SWARM : Nat) (s : FetchSwarmService) (x : ByteArray)
    (hx : x ∈ public_keys s) :
    swarm_entries NODE_SWARM
        { s with suggestions := s.suggestions.filter (fun d => d.public_key ≠ x) }
      = swarm_entries NODE_SWARM s := by
  rw [swarm_entries_eq, swarm_entries_eq, public_keys_suggestions]
  exact candidate_list_spec_filter NODE_SWARM (public_keys s) s.suggestions x hx

theorem TrackPeers_filter (NODE_SWARM : Nat) (shuffle : List EntryPoint → List EntryPoint)
    (s : FetchSwarmService) (x : ByteArray) (hx : x ∈ public_keys s) :
    TrackPeers NODE_SWARM shuffle
        { s with suggestions := s.suggestions.filter (fun d => d.public_key ≠ x) }
      = TrackPeers NODE_SWARM shuffle s := by
  simp only [TrackPeers, targets, swarm_entries_filter NODE_SWARM s x hx,
    public_keys_suggestions]

theorem targets_subset (NODE_SWARM : Nat) (shuffle : List EntryPoint → List EntryPoint)
    (s : FetchSwarmService) (hperm : ∀ l, (shuffle l).Perm l) :
    targets NODE_SWARM shuffle s ⊆ swarm_entries NODE_SWARM s := by
  rw [targets_eq_take]
  exact fun e he => (hperm _).subset (List.take_subset _ _ he)

theorem mem_targets (NODE_SWARM : Nat) (shuffle : List EntryPoint → List EntryPoint)
    (s : FetchSwarmService) (hperm : ∀ l, (shuffle l).Perm l) (e : EntryPoint)
    (he : e ∈ targets NODE_SWARM shuffle s) :
    ∃ d ∈ s.suggestions, d.public_key ∉ public_keys s ∧ e ∈ d.entry_points
      ∧ e.configuration &&& NODE_SWARM ≠ 0 := by
  have h := targets_subset NODE_SWARM shuffle s hperm he
  rw [swarm_entries_eq] at h
  exact (mem_candidate_list_spec NODE_SWARM _ _ e).mp h

theorem swarm_entries_unknown (NODE_SWARM : Nat) (s : FetchSwarmService) (x : ByteArray)
    (hx : x ∈ public_keys s) (e : EntryPoint) (he : e ∈ swarm_entries NODE_SWARM s) :
    ∃ d ∈ s.suggestions, d.public_key ≠ x ∧ e ∈ d.entry_points := by
  rw [swarm_entries_eq] at he
  obtain ⟨d, hd, hk, hed, _⟩ := (mem_candidate_list_spec NODE_SWARM _ _ e).mp he
  exact ⟨d, hd, fun h => hk (h ▸ hx), hed⟩

theorem own_key_known (s : FetchSwarmService) : s.details_.public_key ∈ public_keys s :=
  (mem_public_keys s _).mpr (Or.inl rfl)

theorem peer_key_known (s : FetchSwarmService) (P : NodeDetails)
    (hP : P ∈ s.server_details.map Prod.snd ∨ P ∈ s.client_details.map Prod.snd) :
    P.public_key ∈ public_keys s := by
  rw [mem_public_keys]
  rcases hP with h | h
  · obtain ⟨d, hd, rfl⟩ := List.mem_map.mp h
    exact Or.inr (Or.inl ⟨d, hd, rfl⟩)
  · obtain ⟨d, hd, rfl⟩ := List.mem_map.mp h
    exact Or.inr (Or.inr ⟨d, hd, rfl⟩)

theorem bootstrap_from_targets (NODE_SWARM : Nat)
    (shuffle : List EntryPoint → List EntryPoint) (s : FetchSwarmService)
    (call : String × Nat) (hc : call ∈ (TrackPeers NODE_SWARM shuffle s).bootstrap) :
    ∃ e ∈ targets NODE_SWARM shuffle s, call = (e.host, e.port) := by
  obtain ⟨e, he, rfl⟩ := List.mem_map.mp hc
  exact ⟨e, he, rfl⟩

theorem land_two_pow_ne_zero (c b : Nat) : c &&& 2 ^ b ≠ 0 ↔ c.testBit b = true := by
  rw [Nat.and_two_pow]
  cases c.testBit b <;> simp

/-! ## The known-identity set and the candidate list -/

/-- C7: the set `public_keys` built by `TrackPeers` holds exactly the node's own
public key and the public keys of the values of `server_peers` and of
`client_peers`; its size is the number of distinct keys among them, which is at
least 1 and at most 1 + |server_peers| + |client_peers|. -/
theorem C7_known_identity_set (s : FetchSwarmService) :
    (∀ x, x ∈ public_keys s ↔
      (x = s.details_.public_key ∨ (∃ d ∈ s.server_details, d.2.public_key = x)
        ∨ (∃ d ∈ s.client_details, d.2.public_key = x)))
    ∧ (public_keys s).card
        = ((s.details_.public_key :: (s.server_details.map (fun d => d.2.public_key)
            ++ s.client_details.map (fun d => d.2.public_key))).dedup).length
    ∧ 1 ≤ (public_keys s).card
    ∧ (public_keys s).card ≤ 1 + s.server_details.length + s.client_details.length := by
  have hset : public_keys s
      = (s.details_.public_key :: (s.server_details.map (fun d => d.2.public_key)
          ++ s.client_details.map (fun d => d.2.public_key))).toFinset := by
    rw [public_keys_eq]
    ext x
    simp only [Finset.mem_union, Finset.mem_singleton, List.mem_toFinset, List.mem_cons,
      List.mem_append]
    tauto
  refine ⟨?_, ?_, public_keys_card_pos s, ?_⟩
  · intro x
    rw [public_keys_eq]
    simp only [Finset.mem_union, Finset.mem_singleton, List.mem_toFinset, List.mem_map,
      or_assoc]
  · rw [hset, List.card_toFinset]
  · rw [hset]
    refine le_trans (List.toFinset_card_le _) ?_
    simp only [List.length_cons, List.length_append, List.length_map]
    omega

/-- C5: the list `swarm_entries` built by `TrackPeers` before the shuffle is the
in-order concatenation, over the suggested NodeDetails whose public key is not
in the known-identity set, of their entry points that have `NODE_SWARM`; this
holds of the loop for every set `K` and every suggestion list `S`. -/
theorem C5_candidate_list_refines (NODE_SWARM : Nat) (K : Finset ByteArray)
    (S : List NodeDetails) (s : FetchSwarmService) :
    collect NODE_SWARM K [] S = candidate_list_spec NODE_SWARM K S
    ∧ swarm_entries NODE_SWARM s
        = candidate_list_spec NODE_SWARM (public_keys s) s.suggestions := by
  refine ⟨?_, swarm_entries_eq NODE_SWARM s⟩
  simp [collect_eq]

/-! ## Which entry points are targeted -/

/-- C2, as stated, fails: the known peer 1 and the unknown peer 7 advertise the
same entry point; it is an entry point of a suggested NodeDetails with the key
of a connected peer, it is in the candidate list and it is passed to
Bootstrap. -/
theorem C2_known_peer_entry_targeted :
    (1, node 1 [entry_at "10.0.0.1" 1337 swarm_bit]) ∈ shared_entry.server_details
    ∧ node 1 [entry_at "10.0.0.1" 1337 swarm_bit] ∈ shared_entry.suggestions
    ∧ entry_at "10.0.0.1" 1337 swarm_bit
        ∈ (node 1 [entry_at "10.0.0.1" 1337 swarm_bit]).entry_points
    ∧ entry_at "10.0.0.1" 1337 swarm_bit ∈ swarm_entries swarm_bit shared_entry
    ∧ (TrackPeers swarm_bit id shared_entry).bootstrap = [("10.0.0.1", 1337)] := by
  decide

/-- C2, amended: a suggested NodeDetails whose public key is that of a peer `P`
present in `server_peers` or `client_peers` (under any connection id)
contributes nothing: without these NodeDetails the candidate list and the
iteration are the same, and every element of the candidate list, every entry
Bootstrap is called for and every Bootstrap call comes from a suggested
NodeDetails whose public key differs from that of `P`. -/
theorem C2_known_peer_contributes_nothing (NODE_SWARM : Nat)
    (shuffle : List EntryPoint → List EntryPoint) (s : FetchSwarmService)
    (hperm : ∀ l, (shuffle l).Perm l) (P : NodeDetails)
    (hP : P ∈ s.server_details.map Prod.snd ∨ P ∈ s.client_details.map Prod.snd) :
    swarm_entries NODE_SWARM
        { s with suggestions := s.suggestions.filter (fun d => d.public_key ≠ P.public_key) }
      = swarm_entries NODE_SWARM s
    ∧ TrackPeers NODE_SWARM shuffle
        { s with suggestions := s.suggestions.filter (fun d => d.public_key ≠ P.public_key) }
      = TrackPeers NODE_SWARM shuffle s
    ∧ (∀ e ∈ swarm_entries NODE_SWARM s,
        ∃ d ∈ s.suggestions, d.public_key ≠ P.public_key ∧ e ∈ d.entry_points)
    ∧ (∀ e ∈ targets NODE_SWARM shuffle s,
        ∃ d ∈ s.suggestions, d.public_key ≠ P.public_key ∧ e ∈ d.entry_points)
    ∧ (∀ call ∈ (TrackPeers NODE_SWARM shuffle s).bootstrap,
        ∃ d ∈ s.suggestions, d.public_key ≠ P.public_key
          ∧ ∃ e ∈ d.entry_points, call = (e.host, e.port)) := by
  have hx := peer_key_known s P hP
  refine ⟨swarm_entries_filter NODE_SWARM s _ hx, TrackPeers_filter NODE_SWARM shuffle s _ hx,
    swarm_entries_unknown NODE_SWARM s _ hx, ?_, ?_⟩
  · intro e he
    exact swarm_entries_unknown NODE_SWARM s _ hx e (targets_subset NODE_SWARM shuffle s hperm he)
  · intro call hc
    obtain ⟨e, he, hcall⟩ := bootstrap_from_targets NODE_SWARM shuffle s call hc
    obtain ⟨d, hd, hk, hed⟩ :=
      swarm_entries_unknown NODE_SWARM s _ hx e (targets_subset NODE_SWARM shuffle s hperm he)
    exact ⟨d, hd, hk, e, hed, hcall⟩

/-- C2, amended, at a concrete state: peer 1 is connected inbound and outbound
and is suggested; the candidates come from the peers 7 and 8 only. -/
theorem C2_known_peer_contributes_nothing_witness :
    (node 1 [] ∈ mixed_suggestions.server_details.map Prod.snd
      ∨ node 1 [] ∈ mixed_suggestions.client_details.map Prod.snd)
    ∧ swarm_entries swarm_bit
        { mixed_suggestions with
          suggestions := mixed_suggestions.suggestions.filter
            (fun d => d.public_key ≠ (node 1 []).public_key) }
      = swarm_entries swarm_bit mixed_suggestions
    ∧ swarm_entries swarm_bit mixed_suggestions
      = [entry_at "10.0.0.7" 1 swarm_bit, entry_at "10.0.0.7" 3 (swarm_bit + 1),
          entry_at "10.0.0.8" 5 swarm_bit] :=
  ⟨by decide,
    (C2_known_peer_contributes_nothing swarm_bit List.reverse mixed_suggestions
      (fun l => List.reverse_perm l) (node 1 []) (by decide)).1,
    by decide⟩

/-- C3: every entry Bootstrap is called for, and every Bootstrap call, comes from
a suggested NodeDetails whose public key differs from the node's own public
key, and the suggestions that carry the node's own key contribute nothing:
without them the candidate list and the whole iteration are the same. -/
theorem C3_self_exclusion (NODE_SWARM : Nat) (shuffle : List EntryPoint → List EntryPoint)
    (s : FetchSwarmService) (hperm : ∀ l, (shuffle l).Perm l) :
    (∀ e ∈ targets NODE_SWARM shuffle s,
        ∃ d ∈ s.suggestions, d.public_key ≠ s.details_.public_key ∧ e ∈ d.entry_points)
    ∧ (∀ call ∈ (TrackPeers NODE_SWARM shuffle s).bootstrap,
        ∃ d ∈ s.suggestions, d.public_key ≠ s.details_.public_key
          ∧ ∃ e ∈ d.entry_points, call = (e.host, e.port))
    ∧ swarm_entries NODE_SWARM
        { s with
          suggestions := s.suggestions.filter (fun d => d.public_key ≠ s.details_.public_key) }
      = swarm_entries NODE_SWARM s
    ∧ TrackPeers NODE_SWARM shuffle
        { s with
          suggestions := s.suggestions.filter (fun d => d.public_key ≠ s.details_.public_key) }
      = TrackPeers NODE_SWARM shuffle s := by
  have hx := own_key_known s
  refine ⟨?_, ?_, swarm_entries_filter NODE_SWARM s _ hx,
    TrackPeers_filter NODE_SWARM shuffle s _ hx⟩
  · intro e he
    exact swarm_entries_unknown NODE_SWARM s _ hx e (targets_subset NODE_SWARM shuffle s hperm he)
  · intro call hc
    obtain ⟨e, he, hcall⟩ := bootstrap_from_targets NODE_SWARM shuffle s call hc
    obtain ⟨d, hd, hk, hed⟩ :=
      swarm_entries_unknown NODE_SWARM s _ hx e (targets_subset NODE_SWARM shuffle s hperm he)
    exact ⟨d, hd, hk, e, hed, hcall⟩

/-- C3 at a concrete state whose suggestions hold the node's own details: the
own entry point `127.0.0.1:1337` is not among the calls. -/
theorem C3_self_exclusion_witness :
    node 0 [entry_at "127.0.0.1" 1337 swarm_bit] ∈ mixed_suggestions.suggestions
    ∧ (TrackPeers swarm_bit List.reverse mixed_suggestions).bootstrap
        = [("10.0.0.8", 5), ("10.0.0.7", 3), ("10.0.0.7", 1)]
    ∧ ∀ call ∈ (TrackPeers swarm_bit List.reverse mixed_suggestions).bootstrap,
        ∃ d ∈ mixed_suggestions.suggestions,
          d.public_key ≠ mixed_suggestions.details_.public_key
            ∧ ∃ e ∈ d.entry_points, call = (e.host, e.port) :=
  ⟨by decide, by decide,
    (C3_self_exclusion swarm_bit List.reverse mixed_suggestions
      (fun l => List.reverse_perm l)).2.1⟩

/-- C4: every entry Bootstrap is called for has `NODE_SWARM` in its
configuration (the condition `e.configuration & NODE_SWARM` of the source holds,
which for a one-bit mask says that the bit is set), an entry point without it is
never one of them, and every Bootstrap call has the host and port of such an
entry. -/
theorem C4_capability_filter (NODE_SWARM : Nat) (shuffle : List EntryPoint → List EntryPoint)
    (s : FetchSwarmService) (hperm : ∀ l, (shuffle l).Perm l) :
    (∀ e ∈ targets NODE_SWARM shuffle s, e.configuration &&& NODE_SWARM ≠ 0)
    ∧ (∀ e : EntryPoint, e.configuration &&& NODE_SWARM = 0 → e ∉ targets NODE_SWARM shuffle s)
    ∧ (∀ b : Nat, NODE_SWARM = 2 ^ b →
        ∀ e ∈ targets NODE_SWARM shuffle s, e.configuration.testBit b = true)
    ∧ (∀ call ∈ (TrackPeers NODE_SWARM shuffle s).bootstrap,
        ∃ e ∈ targets NODE_SWARM shuffle s,
          e.configuration &&& NODE_SWARM ≠ 0 ∧ call = (e.host, e.port)) := by
  have h : ∀ e ∈ targets NODE_SWARM shuffle s, e.configuration &&& NODE_SWARM ≠ 0 := by
    intro e he
    obtain ⟨_, _, _, _, hc⟩ := mem_targets NODE_SWARM shuffle s hperm e he
    exact hc
  refine ⟨h, fun e h0 he => h e he h0, ?_, ?_⟩
  · intro b hb e he
    have := h e he
    rw [hb] at this
    exact (land_two_pow_ne_zero _ _).mp this
  · intro call hc
    obtain ⟨e, he, hcall⟩ := bootstrap_from_targets NODE_SWARM shuffle s call hc
    exact ⟨e, he, h e he, hcall⟩

/-- C4 at a concrete state: the entry point `10.0.0.7:2` of the unknown peer 7
has configuration 0 and is not a target, its two other entry points are. -/
theorem C4_capability_filter_witness :
    entry_at "10.0.0.7" 2 0 ∈ (node 7 [entry_at "10.0.0.7" 1 swarm_bit, entry_at "10.0.0.7" 2 0,
        entry_at "10.0.0.7" 3 (swarm_bit + 1)]).entry_points
    ∧ targets swarm_bit List.reverse mixed_suggestions
        = [entry_at "10.0.0.8" 5 swarm_bit, entry_at "10.0.0.7" 3 (swarm_bit + 1),
            entry_at "10.0.0.7" 1 swarm_bit]
    ∧ entry_at "10.0.0.7" 2 0 ∉ targets swarm_bit List.reverse mixed_suggestions :=
  ⟨by decide, by decide,
    (C4_capability_filter swarm_bit List.reverse mixed_suggestions
      (fun l => List.reverse_perm l)).2.1 (entry_at "10.0.0.7" 2 0) (by decide)⟩

/-! ## The attempt loop -/

/-- C6: with the counter starting at `k` and `desired_connectivity_ = 5`, the
loop calls Bootstrap for exactly the first `min(|c|, max(1, 5 - k + 1))` entries
of the shuffled list `c`, in order: one call when `k = 5` and `c` is not empty,
`min(|c|, 4)` calls when `k = 2`; and `TrackPeers` runs this loop with
`k = public_keys.size()` on the shuffled candidate list, with the entry's host
and port as arguments. -/
theorem C6_attempt_loop (NODE_SWARM : Nat) (shuffle : List EntryPoint → List EntryPoint)
    (s : FetchSwarmService) (c : List EntryPoint) (k : Nat) :
    (∃ n : Nat, (n : Int) = min (c.length : Int) (max 1 (5 - (k : Int) + 1))
      ∧ attempts 5 k c = c.take n)
    ∧ (k = 5 → c ≠ [] → (attempts 5 k c).length = 1)
    ∧ (k = 2 → (attempts 5 k c).length = min c.length 4)
    ∧ (TrackPeers NODE_SWARM shuffle s).bootstrap
        = (attempts 5 (public_keys s).card (shuffle (swarm_entries NODE_SWARM s))).map
            (fun e => (e.host, e.port)) := by
  refine ⟨⟨min c.length (max 1 (5 + 1 - k)), by omega, ?_⟩, ?_, ?_, rfl⟩
  · rw [attempts_eq_take, List.take_eq_take]
    omega
  · intro hk hc
    have hlen : 0 < c.length := List.length_pos.mpr hc
    rw [attempts_eq_take, List.length_take, hk]
    omega
  · intro hk
    rw [attempts_eq_take, List.length_take, hk]
    omega

/-- C1, as stated, fails: a node that knows six identities (itself and five
peers) and has one eligible candidate issues one Bootstrap call, while
`max(0, 5 - 6 + 1) = 0`. -/
theorem C1_budget_bound_fails :
    (public_keys six_known).card = 6
    ∧ (TrackPeers swarm_bit id six_known).bootstrap = [("10.0.0.6", 1337)]
    ∧ ¬ (((TrackPeers swarm_bit id six_known).bootstrap.length : Int)
          ≤ max 0 (5 - ((public_keys six_known).card : Int) + 1)) := by
  decide

/-- C1, amended: the number of Bootstrap calls of one iteration is at most
`max(1, 5 - k + 1)`, where `k` is the size of the known-identity set; it is also
at most the length of the shuffled candidate list. -/
theorem C1_budget_bound_amended (NODE_SWARM : Nat)
    (shuffle : List EntryPoint → List EntryPoint) (s : FetchSwarmService) :
    ((TrackPeers NODE_SWARM shuffle s).bootstrap.length : Int)
        ≤ max 1 (5 - ((public_keys s).card : Int) + 1)
    ∧ (TrackPeers NODE_SWARM shuffle s).bootstrap.length
        ≤ (shuffle (swarm_entries NODE_SWARM s)).length := by
  simp only [TrackPeers, List.length_map, targets_eq_take, List.length_take]
  omega

/-! ## Scenarios -/

/-- C8: with `self, p1, ..., p5` pairwise distinct, the connected peers having
exactly the keys `p1, ..., p4`, and the suggestions being the details `d5` of
`p5`, whose one `NODE_SWARM` entry point is `e5`, and `d1` of `p1` (whatever its
entry points) in either order, the known-identity set has size 5, the candidate
list is `[e5]`, and for every shuffle the iteration issues exactly one Bootstrap
call, with the host and port of `e5`. -/
theorem C8_scenario_one_unknown_peer (NODE_SWARM : Nat)
    (shuffle : List EntryPoint → List EntryPoint) (s : FetchSwarmService)
    (self p1 p2 p3 p4 p5 : ByteArray) (d1 d5 : NodeDetails) (e5 : EntryPoint)
    (hperm : ∀ l, (shuffle l).Perm l)
    (hdistinct : [self, p1, p2, p3, p4, p5].Nodup)
    (hself : s.details_.public_key = self)
    (hpeers : ∀ x, (∃ d ∈ s.server_details ++ s.client_details, d.2.public_key = x)
      ↔ x ∈ [p1, p2, p3, p4])
    (hd1 : d1.public_key = p1) (hd5 : d5.public_key = p5)
    (he5 : d5.entry_points.filter (fun e => e.configuration &&& NODE_SWARM ≠ 0) = [e5])
    (hS : s.suggestions = [d5, d1] ∨ s.suggestions = [d1, d5]) :
    (public_keys s).card = 5
    ∧ swarm_entries NODE_SWARM s = [e5]
    ∧ (TrackPeers NODE_SWARM shuffle s).bootstrap = [(e5.host, e5.port)] := by
  have hK : public_keys s = [self, p1, p2, p3, p4].toFinset := by
    ext x
    rw [mem_public_keys, List.mem_toFinset]
    have hx := hpeers x
    simp only [List.mem_append, List.mem_cons, List.mem_singleton, List.not_mem_nil,
      or_false] at hx ⊢
    rw [hself]
    constructor
    · rintro (h | ⟨d, hd, h⟩ | ⟨d, hd, h⟩)
      · exact Or.inl h
      · exact Or.inr (hx.mp ⟨d, Or.inl hd, h⟩)
      · exact Or.inr (hx.mp ⟨d, Or.inr hd, h⟩)
    · rintro (h | h)
      · exact Or.inl h
      · obtain ⟨d, hd | hd, h⟩ := hx.mpr h
        · exact Or.inr (Or.inl ⟨d, hd, h⟩)
        · exact Or.inr (Or.inr ⟨d, hd, h⟩)
  have happ : ([self, p1, p2, p3, p4] ++ [p5]).Nodup := hdistinct
  obtain ⟨hnd, _, hdis⟩ := List.nodup_append.mp happ
  have hcard : (public_keys s).card = 5 := by
    rw [hK, List.toFinset_card_of_nodup hnd]
    rfl
  have h1 : d1.public_key ∈ public_keys s := by
    rw [hK, hd1]
    simp
  have h5 : d5.public_key ∉ public_keys s := by
    rw [hK, hd5, List.mem_toFinset]
    exact fun h => hdis h (List.mem_singleton_self p5)
  have hentries : swarm_entries NODE_SWARM s = [e5] := by
    rw [swarm_entries_eq]
    rcases hS with hS | hS <;>
      simp only [hS, candidate_list_spec, List.filter_cons, List.filter_nil, h1, h5,
        not_true_eq_false, not_false_eq_true, decide_True, decide_False, if_true, if_false,
        Bool.false_eq_true, List.flatMap_cons, List.flatMap_nil, he5, List.append_nil]
  refine ⟨hcard, hentries, ?_⟩
  have hsh : shuffle [e5] = [e5] := List.perm_singleton.mp (hperm [e5])
  simp only [TrackPeers, targets_eq_take, hentries, hsh, hcard]
  rfl

/-- C8 at a concrete state: the keys are the bytes 0 to 5, peer 1 is stored
under two connection ids, and the shuffle reverses the list. -/
theorem C8_scenario_one_unknown_peer_witness :
    (public_keys scenario_five_known).card = 5
    ∧ swarm_entries swarm_bit scenario_five_known = [entry_at "10.0.0.5" 1337 swarm_bit]
    ∧ (TrackPeers swarm_bit List.reverse scenario_five_known).bootstrap = [("10.0.0.5", 1337)] :=
  C8_scenario_one_unknown_peer swarm_bit List.reverse scenario_five_known
    [0] [1] [2] [3] [4] [5]
    (node 1 [entry_at "10.0.0.1" 1337 swarm_bit]) (node 5 [entry_at "10.0.0.5" 1337 swarm_bit])
    (entry_at "10.0.0.5" 1337 swarm_bit)
    (fun l => List.reverse_perm l) (by decide) rfl
    (by
      intro x
      simp only [scenario_five_known, node, List.cons_append, List.nil_append, List.mem_cons,
        List.mem_singleton, List.not_mem_nil, or_false, exists_eq_or_imp, exists_eq_left]
      constructor
      · rintro (h | h | h | h | h) <;> simp [← h]
      · rintro (h | h | h | h) <;> simp [h])
    rfl rfl (by decide) (Or.inl rfl)

/-- C9: when the suggestions are empty the candidate list is empty, the
iteration issues no Bootstrap call, and it posts exactly one further iteration
when `running_` is true (none otherwise). -/
theorem C9_empty_suggestions (NODE_SWARM : Nat) (shuffle : List EntryPoint → List EntryPoint)
    (s : FetchSwarmService) (hperm : ∀ l, (shuffle l).Perm l) (hS : s.suggestions = []) :
    swarm_entries NODE_SWARM s = []
    ∧ (TrackPeers NODE_SWARM shuffle s).bootstrap = []
    ∧ (s.running_ = true → (TrackPeers NODE_SWARM shuffle s).posted = 1)
    ∧ (s.running_ = false → (TrackPeers NODE_SWARM shuffle s).posted = 0) := by
  have hentries : swarm_entries NODE_SWARM s = [] := by
    simp [swarm_entries, collect, hS]
  have hsh : shuffle [] = [] := List.perm_nil.mp (hperm [])
  refine ⟨hentries, ?_, ?_, ?_⟩
  · simp [TrackPeers, targets, hentries, hsh, attempts]
  · intro h
    simp [TrackPeers, h]
  · intro h
    simp [TrackPeers, h]

/-- C9 at a concrete state: the node connected to five peers, without
suggestions and running. -/
theorem C9_empty_suggestions_witness :
    ({ six_known with suggestions := [] } : FetchSwarmService).suggestions = []
    ∧ TrackPeers swarm_bit List.reverse { six_known with suggestions := [] }
        = { bootstrap := [], posted := 1 } :=
  ⟨rfl, by
    have h := C9_empty_suggestions swarm_bit List.reverse { six_known with suggestions := [] }
      (fun l => List.reverse_perm l) rfl
    have hb := h.2.1
    have hp := h.2.2.1 rfl
    cases hT : TrackPeers swarm_bit List.reverse { six_known with suggestions := [] }
    rw [hT] at hb hp
    simp only at hb hp
    rw [hb, hp]⟩

/-! ## Stopping the loop -/

/-- C10: an iteration posts a further iteration exactly when `running_` is true
at its end, and its Bootstrap calls do not depend on `running_`: after the stop
handler has run, the iteration issues the same calls and posts nothing. So with
the service stopped, of the queue holding one `TrackPeers` task exactly that
task runs, whatever the number of tasks the queue is allowed to run, and an
empty queue runs none. -/
theorem C10_cooperative_stop (NODE_SWARM : Nat) (shuffle : List EntryPoint → List EntryPoint)
    (s : FetchSwarmService) (env : Nat → FetchSwarmService) (fuel n : Nat)
    (hstopped : ∀ m, n ≤ m → (env m).running_ = false) :
    ((TrackPeers NODE_SWARM shuffle s).posted = 1 ↔ s.running_ = true)
    ∧ ((TrackPeers NODE_SWARM shuffle s).posted = 0 ↔ s.running_ = false)
    ∧ (TrackPeers NODE_SWARM shuffle (stop_event s)).bootstrap
        = (TrackPeers NODE_SWARM shuffle s).bootstrap
    ∧ (TrackPeers NODE_SWARM shuffle (start_event s)).bootstrap
        = (TrackPeers NODE_SWARM shuffle s).bootstrap
    ∧ (TrackPeers NODE_SWARM shuffle (stop_event s)).posted = 0
    ∧ run_queue NODE_SWARM shuffle env (fuel + 1) n 1 = [TrackPeers NODE_SWARM shuffle (env n)]
    ∧ run_queue NODE_SWARM shuffle env fuel n 0 = [] := by
  refine ⟨?_, ?_, rfl, rfl, rfl, ?_, ?_⟩
  · cases h : s.running_ <;> simp [TrackPeers, h]
  · cases h : s.running_ <;> simp [TrackPeers, h]
  · have hp : (TrackPeers NODE_SWARM shuffle (env n)).posted = 0 := by
      simp [TrackPeers, hstopped n le_rfl]
    cases fuel with
    | zero => simp [run_queue]
    | succ f => simp [run_queue, hp]
  · cases fuel <;> simp [run_queue]

/-- C10 at a concrete run: the service is stopped while the first iteration is
queued; that iteration issues its Bootstrap call and nothing runs after it. -/
theorem C10_cooperative_stop_witness :
    (∀ m, 0 ≤ m → ((fun _ => stop_event six_known) m).running_ = false)
    ∧ run_queue swarm_bit id (fun _ => stop_event six_known) (9 + 1) 0 1
        = [{ bootstrap := [("10.0.0.6", 1337)], posted := 0 }] :=
  ⟨fun _ _ => rfl, by
    have h := (C10_cooperative_stop swarm_bit id six_known (fun _ => stop_event six_known) 9 0
      (fun _ _ => rfl)).2.2.2.2.2.1
    rw [h]
    decide⟩

/-! ## Further properties of an iteration -/

/-- C18: the known-identity set holds the own key, so its size is at least 1 and
one iteration issues at most 5 Bootstrap calls, whatever the suggestions and the
shuffle. -/
theorem C18_at_most_five_calls (NODE_SWARM : Nat)
    (shuffle : List EntryPoint → List EntryPoint) (s : FetchSwarmService) :
    1 ≤ (public_keys s).card
    ∧ (TrackPeers NODE_SWARM shuffle s).bootstrap.length ≤ 5 := by
  have hk := public_keys_card_pos s
  refine ⟨hk, ?_⟩
  simp only [TrackPeers, List.length_map, targets_eq_take, List.length_take]
  omega

theorem candidate_list_spec_count (NODE_SWARM : Nat) (K : Finset ByteArray)
    (S : List NodeDetails) (e : EntryPoint) :
    (candidate_list_spec NODE_SWARM K S).count e
      = ((S.filter (fun d => d.public_key ∉ K)).map
          (fun d => (d.entry_points.filter
            (fun e => e.configuration &&& NODE_SWARM ≠ 0)).count e)).sum := by
  unfold candidate_list_spec
  rw [List.count_flatMap]
  rfl

/-- C19: the candidate list keeps one element per occurrence: the number of
times an entry point is in it is the sum, over the suggested NodeDetails with an
unknown key, of the number of times it is among their `NODE_SWARM` entry points;
and when the same unknown peer is suggested twice, an iteration calls Bootstrap
twice with the same host and port. -/
theorem C19_candidates_not_deduplicated (NODE_SWARM : Nat)
    (shuffle : List EntryPoint → List EntryPoint) (s : FetchSwarmService) (e : EntryPoint)
    (hperm : ∀ l, (shuffle l).Perm l) :
    (swarm_entries NODE_SWARM s).count e
      = ((s.suggestions.filter (fun d => d.public_key ∉ public_keys s)).map
          (fun d => (d.entry_points.filter
            (fun e => e.configuration &&& NODE_SWARM ≠ 0)).count e)).sum
    ∧ swarm_entries swarm_bit twice_suggested
        = [entry_at "10.0.0.9" 1337 swarm_bit, entry_at "10.0.0.9" 1337 swarm_bit]
    ∧ (TrackPeers swarm_bit shuffle twice_suggested).bootstrap
        = [("10.0.0.9", 1337), ("10.0.0.9", 1337)] := by
  have hentries : swarm_entries swarm_bit twice_suggested
      = List.replicate 2 (entry_at "10.0.0.9" 1337 swarm_bit) := by decide
  have hsh : shuffle (List.replicate 2 (entry_at "10.0.0.9" 1337 swarm_bit))
      = List.replicate 2 (entry_at "10.0.0.9" 1337 swarm_bit) :=
    List.perm_replicate.mp (hperm _)
  have hcard : (public_keys twice_suggested).card = 2 := by decide
  refine ⟨?_, hentries, ?_⟩
  · rw [swarm_entries_eq]
    exact candidate_list_spec_count NODE_SWARM _ _ e
  · simp only [TrackPeers, targets_eq_take, hentries, hsh, hcard]
    rfl

/-- C19 at a concrete input: with the reversing shuffle the entry point of the
peer suggested twice is counted twice and called twice. -/
theorem C19_candidates_not_deduplicated_witness :
    (swarm_entries swarm_bit twice_suggested).count (entry_at "10.0.0.9" 1337 swarm_bit) = 2
    ∧ (TrackPeers swarm_bit List.reverse twice_suggested).bootstrap
        = [("10.0.0.9", 1337), ("10.0.0.9", 1337)] :=
  ⟨by decide,
    (C19_candidates_not_deduplicated swarm_bit List.reverse twice_suggested
      (entry_at "10.0.0.9" 1337 swarm_bit) (fun l => List.reverse_perm l)).2.2⟩

/-! ## The constructor -/

/-- C11: after the constructor the node's own NodeDetails has the given public
key and ports, its entry points hold (as last element) the entry point
`127.0.0.1` with shard 0, the given ports and configuration `NODE_SWARM`, so
they are not empty; the service is stopped, and the constructor has posted no
task and called no Bootstrap. -/
theorem C11_self_entry_point_seeded (NODE_SWARM : Nat) (details : NodeDetails)
    (port http_port : Nat) (pk : ByteArray) :
    (FetchSwarmService.construct NODE_SWARM details port http_port pk).1.details_.public_key
        = pk
    ∧ (FetchSwarmService.construct NODE_SWARM details port http_port pk).1.details_.default_port
        = port
    ∧ (FetchSwarmService.construct NODE_SWARM details port http_port
          pk).1.details_.default_http_port = http_port
    ∧ ({ host := "127.0.0.1", shard := 0, port := port, http_port := http_port,
          configuration := NODE_SWARM } : EntryPoint)
        ∈ (FetchSwarmService.construct NODE_SWARM details port http_port
            pk).1.details_.entry_points
    ∧ (FetchSwarmService.construct NODE_SWARM details port http_port
          pk).1.details_.entry_points
        = details.entry_points ++
          [{ host := "127.0.0.1", shard := 0, port := port, http_port := http_port,
             configuration := NODE_SWARM }]
    ∧ (FetchSwarmService.construct NODE_SWARM details port http_port
          pk).1.details_.entry_points ≠ []
    ∧ (FetchSwarmService.construct NODE_SWARM details port http_port pk).1.running_
        = false
    ∧ (FetchSwarmService.construct NODE_SWARM details port http_port pk).2
        = { bootstrap := [], posted := 0 } := by
  refine ⟨rfl, rfl, rfl, ?_, rfl, ?_, rfl, rfl⟩
  · simp [FetchSwarmService.construct, AddEntryPoint]
  · simp [FetchSwarmService.construct, AddEntryPoint]

/-! ## The interval wait -/

/-- C12, as stated, fails: the task of an iteration sleeps in place, its first
step is a sleep of 2000 ms of the thread that runs it. -/
theorem C12_task_sleeps_in_place :
    TrackPeers_steps swarm_bit id six_known
      = [Action.sleep_for 2000, Action.Bootstrap "10.0.0.6" 1337, Action.post_TrackPeers]
    ∧ Action.sleep_for 2000 ∈ TrackPeers_steps swarm_bit id six_known := by
  decide

/-- C12, amended: in every iteration the wait of 2000 ms is a sleep in place at
the start of the posted task, before the Bootstrap calls; it is the only sleep
of the task, and the further iteration, when there is one, is posted at once as
the last step of the task. -/
theorem C12_interval_wait_amended (NODE_SWARM : Nat)
    (shuffle : List EntryPoint → List EntryPoint) (s : FetchSwarmService) :
    ∃ rest : List Action,
      TrackPeers_steps NODE_SWARM shuffle s = Action.sleep_for 2000 :: rest
      ∧ (∀ ms, Action.sleep_for ms ∉ rest)
      ∧ rest = (TrackPeers NODE_SWARM shuffle s).bootstrap.map
            (fun call => Action.Bootstrap call.1 call.2)
          ++ List.replicate (TrackPeers NODE_SWARM shuffle s).posted Action.post_TrackPeers := by
  refine ⟨(targets NODE_SWARM shuffle s).map (fun e => Action.Bootstrap e.host e.port)
      ++ (if s.running_ then [Action.post_TrackPeers] else []), rfl, ?_, ?_⟩
  · intro ms h
    simp only [List.mem_append, List.mem_map] at h
    rcases h with ⟨e, _, he⟩ | h
    · exact Action.noConfusion he
    · cases hr : s.running_ <;> simp [hr] at h
  · cases hr : s.running_ <;> simp [TrackPeers, hr, List.replicate]

/-! ## `BigUnsigned`: reads, writes and the encoded value -/

theorem read_of_lt (x : BigUnsigned) (i : Nat) (h : i < x.length) :
    read x i = Except.ok (x.getD i 0) := by
  simp [read, List.getD, List.getElem?_eq_getElem h]
  rfl

theorem read_of_le (x : BigUnsigned) (i : Nat) (h : x.length ≤ i) :
    read x i = Except.error (Fault.out_of_range i) := by
  simp [read, List.getElem?_eq_none h]
  rfl

theorem write_of_lt (x : BigUnsigned) (i v : Nat) (h : i < x.length) :
    write x i v = Except.ok (x.set i v) := by
  simp [write, h]
  rfl

theorem getElem?_of_lt (x : BigUnsigned) (i : Nat) (h : i < x.length) :
    x[i]? = some (x.getD i 0) := by
  simp [List.getD, List.getElem?_eq_getElem h]

theorem well_formed_cons (b : Nat) (x : BigUnsigned) :
    well_formed (b :: x) ↔ b < 256 ∧ well_formed x := by
  simp [well_formed]

theorem well_formed_append (x y : BigUnsigned) :
    well_formed (x ++ y) ↔ well_formed x ∧ well_formed y := by
  simp only [well_formed, List.mem_append]
  constructor
  · exact fun h => ⟨fun b hb => h b (Or.inl hb), fun b hb => h b (Or.inr hb)⟩
  · rintro ⟨h1, h2⟩ b (hb | hb)
    · exact h1 b hb
    · exact h2 b hb

theorem well_formed_take (x : BigUnsigned) (k : Nat) (h : well_formed x) :
    well_formed (x.take k) :=
  fun b hb => h b (List.mem_of_mem_take hb)

theorem well_formed_drop (x : BigUnsigned) (k : Nat) (h : well_formed x) :
    well_formed (x.drop k) :=
  fun b hb => h b (List.mem_of_mem_drop hb)

theorem getD_lt_of_well_formed (x : BigUnsigned) (i : Nat) (h : well_formed x) :
    x.getD i 0 < 256 := by
  by_cases hi : i < x.length
  · have : x.getD i 0 = x[i] := by simp [List.getD, List.getElem?_eq_getElem hi]
    rw [this]
    exact h _ (List.getElem_mem hi)
  · have : x.getD i 0 = 0 := by simp [List.getD, List.getElem?_eq_none (Nat.le_of_not_lt hi)]
    omega

theorem value_append (x y : BigUnsigned) :
    value (x ++ y) = value x + 256 ^ x.length * value y := by
  induction x with
  | nil => simp [value]
  | cons b rest ih =>
    show value (b :: (rest ++ y)) = value (b :: rest) + 256 ^ (rest.length + 1) * value y
    rw [value, value, ih, pow_succ]
    ring

theorem value_lt (x : BigUnsigned) (h : well_formed x) : value x < 256 ^ x.length := by
  induction x with
  | nil => simp [value]
  | cons b rest ih =>
    have hb := ((well_formed_cons b rest).mp h).1
    have hr := ih ((well_formed_cons b rest).mp h).2
    simp only [value, List.length_cons, pow_succ]
    omega

theorem value_replicate_zero (k : Nat) : value (List.replicate k 0) = 0 := by
  induction k with
  | zero => rfl
  | succ k ih => simp [List.replicate, value, ih]

theorem value_eq_zero_iff (x : BigUnsigned) : value x = 0 ↔ ∀ b ∈ x, b = 0 := by
  induction x with
  | nil => simp [value]
  | cons b rest ih =>
    simp only [value, List.mem_cons, forall_eq_or_imp, ← ih]
    omega

theorem value_take_mod (x : BigUnsigned) (k : Nat) (h : well_formed x) :
    value (x.take k) = value x % 256 ^ k := by
  have hx : value x = value (x.take k) + 256 ^ (x.take k).length * value (x.drop k) := by
    rw [← value_append, List.take_append_drop]
  have hlt := value_lt (x.take k) (well_formed_take x k h)
  by_cases hk : k ≤ x.length
  · rw [List.length_take, Nat.min_eq_left hk] at hx hlt
    rw [hx, Nat.add_mul_mod_self_left, Nat.mod_eq_of_lt hlt]
  · have hk' : x.length ≤ k := by omega
    rw [List.take_of_length_le hk']
    have h1 := value_lt x h
    have h2 : 256 ^ x.length ≤ 256 ^ k := Nat.pow_le_pow_right (by norm_num) hk'
    rw [Nat.mod_eq_of_lt (by omega)]

theorem bind_ok {α β : Type} (a : α) (f : α → Except Fault β) :
    (Except.ok a >>= f) = f a := rfl

theorem bind_error {α β : Type} (e : Fault) (f : α → Except Fault β) :
    ((Except.error e : Except Fault α) >>= f) = Except.error e := rfl

theorem pure_eq_ok {α : Type} (a : α) : (pure a : Except Fault α) = Except.ok a := rfl

/-! ## `TrimmedSize` -/

theorem TrimmedSize_loop_spec (x : BigUnsigned) (k : Nat) (hk : k ≤ x.length) :
    ∃ r, TrimmedSize_loop x k = Except.ok r ∧ r ≤ k
      ∧ (∀ i, r ≤ i → i < k → x.getD i 0 = 0)
      ∧ (r = 0 ∨ x.getD (r - 1) 0 ≠ 0) := by
  induction k with
  | zero => exact ⟨0, rfl, le_rfl, fun i _ hi => absurd hi (Nat.not_lt_zero i), Or.inl rfl⟩
  | succ k ih =>
    have hlt : k < x.length := hk
    by_cases hb : x.getD k 0 = 0
    · obtain ⟨r, hr, hle, hz, hn⟩ := ih (by omega)
      refine ⟨r, ?_, by omega, ?_, hn⟩
      · rw [TrimmedSize_loop, read_of_lt x k hlt, bind_ok, if_pos hb, hr]
      · intro i h1 h2
        by_cases hik : i = k
        · rw [hik]
          exact hb
        · exact hz i h1 (by omega)
    · refine ⟨k + 1, ?_, le_rfl, fun i h1 h2 => by omega, Or.inr hb⟩
      rw [TrimmedSize_loop, read_of_lt x k hlt, bind_ok, if_neg hb]
      rfl

theorem TrimmedSize_spec (x : BigUnsigned) :
    ∃ r, TrimmedSize x = Except.ok r ∧ r ≤ x.length
      ∧ (∀ i, r ≤ i → i < x.length → x.getD i 0 = 0)
      ∧ (r = 0 ∨ x.getD (r - 1) 0 ≠ 0) :=
  TrimmedSize_loop_spec x x.length le_rfl

theorem value_take_of_zeros (x : BigUnsigned) (r : Nat)
    (hz : ∀ i, r ≤ i → i < x.length → x.getD i 0 = 0) :
    value x = value (x.take r) := by
  have hx : value x = value (x.take r) + 256 ^ (x.take r).length * value (x.drop r) := by
    rw [← value_append, List.take_append_drop]
  have hd : value (x.drop r) = 0 := by
    rw [value_eq_zero_iff]
    intro b hb
    obtain ⟨j, hj, rfl⟩ := List.mem_iff_getElem.mp hb
    rw [List.length_drop] at hj
    have := hz (r + j) (by omega) (by omega)
    rw [List.getElem_drop]
    simpa [List.getD, List.getElem?_eq_getElem (show r + j < x.length by omega)] using this
  rw [hx, hd]
  simp

theorem getD_eq_zero_of_all_zero (x : BigUnsigned) (h : ∀ b ∈ x, b = 0) (i : Nat) :
    x.getD i 0 = 0 := by
  by_cases hi : i < x.length
  · have : x.getD i 0 = x[i] := by simp [List.getD, List.getElem?_eq_getElem hi]
    rw [this]
    exact h _ (List.getElem_mem hi)
  · simp [List.getD, List.getElem?_eq_none (Nat.le_of_not_lt hi)]

/-- C17: `TrimmedSize` returns a result `r` that is at most the size, every byte
at an index from `r` up to the size is 0, and `r = 0` or the byte at `r - 1` is
not 0; so `r = 0` exactly when all bytes are 0, and for bytes below 256 the
little-endian value is below `256 ^ r`. -/
theorem C17_TrimmedSize (x : BigUnsigned) :
    ∃ r, TrimmedSize x = Except.ok r
      ∧ r ≤ x.length
      ∧ (∀ i, r ≤ i → i < x.length → x[i]? = some 0)
      ∧ (r = 0 ∨ ∃ b, x[r - 1]? = some b ∧ b ≠ 0)
      ∧ (r = 0 ↔ ∀ b ∈ x, b = 0)
      ∧ (well_formed x → value x < 256 ^ r) := by
  obtain ⟨r, hr, hle, hz, hn⟩ := TrimmedSize_spec x
  refine ⟨r, hr, hle, ?_, ?_, ?_, ?_⟩
  · intro i h1 h2
    rw [getElem?_of_lt x i h2, hz i h1 h2]
  · rcases hn with h | h
    · exact Or.inl h
    · by_cases h0 : r = 0
      · exact Or.inl h0
      · exact Or.inr ⟨x.getD (r - 1) 0, getElem?_of_lt x (r - 1) (by omega), h⟩
  · constructor
    · intro h0
      rw [← value_eq_zero_iff, value_take_of_zeros x r hz, h0]
      rfl
    · intro hall
      rcases hn with h | h
      · exact h
      · exact absurd (getD_eq_zero_of_all_zero x hall (r - 1)) h
  · intro hwf
    rw [value_take_of_zeros x r hz]
    have := value_lt (x.take r) (well_formed_take x r hwf)
    rwa [List.length_take, Nat.min_eq_left hle] at this

/-! ## `operator<` -/

theorem value_take_succ (x : BigUnsigned) (k : Nat) (hk : k < x.length) :
    value (x.take (k + 1)) = value (x.take k) + 256 ^ k * x.getD k 0 := by
  rw [List.take_succ, value_append, List.length_take, Nat.min_eq_left (Nat.le_of_lt hk),
    getElem?_of_lt x k hk]
  simp [value]

theorem value_take_lt (x : BigUnsigned) (k : Nat) (hk : k ≤ x.length) (h : well_formed x) :
    value (x.take k) < 256 ^ k := by
  have := value_lt (x.take k) (well_formed_take x k h)
  rwa [List.length_take, Nat.min_eq_left hk] at this

theorem less_loop_spec (x other : BigUnsigned) (j0 : Nat) (h1 : j0 < x.length)
    (h2 : j0 < other.length) :
    ∃ j, less_loop x other j0 = Except.ok j ∧ j ≤ j0
      ∧ (∀ i, j < i → i ≤ j0 → x.getD i 0 = other.getD i 0)
      ∧ (j = 0 ∨ x.getD j 0 ≠ other.getD j 0) := by
  induction j0 with
  | zero => exact ⟨0, rfl, le_rfl, fun i h3 h4 => by omega, Or.inl rfl⟩
  | succ k ih =>
    by_cases hb : x.getD (k + 1) 0 = other.getD (k + 1) 0
    · obtain ⟨j, hj, hle, heq, hn⟩ := ih (by omega) (by omega)
      refine ⟨j, ?_, by omega, ?_, hn⟩
      · rw [less_loop, read_of_lt x (k + 1) h1, bind_ok, read_of_lt other (k + 1) h2, bind_ok,
          if_pos hb, hj]
      · intro i h3 h4
        by_cases hik : i = k + 1
        · rw [hik]
          exact hb
        · exact heq i h3 (by omega)
    · refine ⟨k + 1, ?_, le_rfl, fun i h3 h4 => by omega, Or.inr hb⟩
      rw [less_loop, read_of_lt x (k + 1) h1, bind_ok, read_of_lt other (k + 1) h2, bind_ok,
        if_neg hb]
      rfl

theorem value_take_agree (x other : BigUnsigned) (j j0 : Nat) (hj : j ≤ j0)
    (h1 : j0 < x.length) (h2 : j0 < other.length)
    (heq : ∀ i, j < i → i ≤ j0 → x.getD i 0 = other.getD i 0) :
    value (x.take (j0 + 1)) + value (other.take (j + 1))
      = value (other.take (j0 + 1)) + value (x.take (j + 1)) := by
  induction j0 with
  | zero =>
    have : j = 0 := by omega
    subst this
    exact Nat.add_comm _ _
  | succ k ih =>
    by_cases hjk : j = k + 1
    · subst hjk
      exact Nat.add_comm _ _
    · have h := ih (by omega) (by omega) (by omega) (fun i h3 h4 => heq i h3 (by omega))
      rw [value_take_succ x (k + 1) h1, value_take_succ other (k + 1) h2,
        heq (k + 1) (by omega) le_rfl]
      omega

theorem digit_lt_iff (P a b c d : Nat) (ha : a < P) (hc : c < P) (h : b ≠ d ∨ a = c) :
    a + P * b < c + P * d ↔ b < d := by
  rcases Nat.lt_trichotomy b d with hlt | heq | hgt
  · have := Nat.mul_le_mul_left P (show b + 1 ≤ d from hlt)
    rw [Nat.mul_succ] at this
    exact ⟨fun _ => hlt, fun _ => by omega⟩
  · rcases h with h | h
    · exact absurd heq h
    · subst heq
      subst h
      simp
  · have := Nat.mul_le_mul_left P (show d + 1 ≤ b from hgt)
    rw [Nat.mul_succ] at this
    exact ⟨fun h' => by omega, fun h' => by omega⟩

theorem pow_le_value (x : BigUnsigned) (r : Nat) (hr : 0 < r) (hle : r ≤ x.length)
    (hz : ∀ i, r ≤ i → i < x.length → x.getD i 0 = 0) (hn : x.getD (r - 1) 0 ≠ 0) :
    256 ^ (r - 1) ≤ value x := by
  have hs := value_take_succ x (r - 1) (by omega)
  rw [show r - 1 + 1 = r by omega] at hs
  rw [value_take_of_zeros x r hz, hs]
  have : 256 ^ (r - 1) * 1 ≤ 256 ^ (r - 1) * x.getD (r - 1) 0 :=
    Nat.mul_le_mul_left _ (by omega)
  omega

theorem less_spec (x other : BigUnsigned) (hx : well_formed x) (ho : well_formed other) :
    less x other = Except.ok (decide (value x < value other)) := by
  obtain ⟨r1, hr1, hle1, hz1, hn1⟩ := TrimmedSize_spec x
  obtain ⟨r2, hr2, hle2, hz2, hn2⟩ := TrimmedSize_spec other
  have hv1 : value x < 256 ^ r1 := by
    rw [value_take_of_zeros x r1 hz1]
    exact value_take_lt x r1 hle1 hx
  have hv2 : value other < 256 ^ r2 := by
    rw [value_take_of_zeros other r2 hz2]
    exact value_take_lt other r2 hle2 ho
  rw [less, hr1, bind_ok, hr2, bind_ok]
  by_cases hne : r1 ≠ r2
  · rw [if_pos hne, pure_eq_ok]
    congr 1
    rw [decide_eq_decide]
    rcases Nat.lt_or_gt_of_ne hne with hlt | hgt
    · have h0 : r2 ≠ 0 := by omega
      have hp := pow_le_value other r2 (by omega) hle2 hz2 (hn2.resolve_left h0)
      have : 256 ^ r1 ≤ 256 ^ (r2 - 1) := Nat.pow_le_pow_right (by norm_num) (by omega)
      exact ⟨fun _ => by omega, fun _ => hlt⟩
    · have h0 : r1 ≠ 0 := by omega
      have hp := pow_le_value x r1 (by omega) hle1 hz1 (hn1.resolve_left h0)
      have : 256 ^ r2 ≤ 256 ^ (r1 - 1) := Nat.pow_le_pow_right (by norm_num) (by omega)
      exact ⟨fun _ => by omega, fun _ => by omega⟩
  · rw [if_neg hne]
    have heq : r1 = r2 := not_not.mp hne
    subst heq
    by_cases h0 : r1 = 0
    · rw [if_pos h0, pure_eq_ok]
      subst h0
      congr 1
      simp only [pow_zero, Nat.lt_one_iff] at hv1 hv2
      simp [hv1, hv2]
    · rw [if_neg h0]
      obtain ⟨j, hj, hjle, hagree, hjn⟩ :=
        less_loop_spec x other (r1 - 1) (by omega) (by omega)
      rw [hj, bind_ok, read_of_lt x j (by omega), bind_ok, read_of_lt other j (by omega),
        bind_ok, pure_eq_ok]
      congr 1
      rw [decide_eq_decide]
      have hag := value_take_agree x other j (r1 - 1) hjle (by omega) (by omega) hagree
      rw [show r1 - 1 + 1 = r1 by omega] at hag
      have hsx := value_take_succ x j (by omega)
      have hsy := value_take_succ other j (by omega)
      have hlx := value_take_lt x j (by omega) hx
      have hly := value_take_lt other j (by omega) ho
      have hcond : x.getD j 0 ≠ other.getD j 0 ∨ value (x.take j) = value (other.take j) := by
        rcases hjn with h | h
        · subst h
          exact Or.inr rfl
        · exact Or.inl h
      have hd := digit_lt_iff (256 ^ j) (value (x.take j)) (x.getD j 0)
        (value (other.take j)) (other.getD j 0) hlx hly hcond
      rw [← hd, ← hsx, ← hsy, value_take_of_zeros x r1 hz1, value_take_of_zeros other r1 hz2]
      omega

/-- C14: for two `BigUnsigned` with bytes below 256, of equal or different
sizes, `operator<` returns, without reading outside either array, whether the
little-endian value of the first is smaller than that of the second; zero bytes
at the high end do not change the value, two all-zero values compare false, and
`operator>` is `operator<` with the operands exchanged. -/
theorem C14_less_is_numeric (x other : BigUnsigned) (hx : well_formed x)
    (ho : well_formed other) :
    less x other = Except.ok (decide (value x < value other))
    ∧ greater x other = Except.ok (decide (value other < value x))
    ∧ greater x other = less other x
    ∧ (∀ k, value (x ++ List.replicate k 0) = value x)
    ∧ ((∀ b ∈ x, b = 0) → (∀ b ∈ other, b = 0) → less x other = Except.ok false) := by
  refine ⟨less_spec x other hx ho, less_spec other x ho hx, rfl, ?_, ?_⟩
  · intro k
    rw [value_append, value_replicate_zero]
    simp
  · intro h1 h2
    rw [less_spec x other hx ho, (value_eq_zero_iff x).mpr h1, (value_eq_zero_iff other).mpr h2]
    rfl

/-- C14 at concrete inputs of different sizes: `[3, 1, 0]` encodes 259 and
`[2, 2]` encodes 514. -/
theorem C14_less_is_numeric_witness :
    well_formed [3, 1, 0] ∧ well_formed [2, 2]
    ∧ value [3, 1, 0] = 259 ∧ value [2, 2] = 514
    ∧ less [3, 1, 0] [2, 2] = Except.ok true
    ∧ greater [3, 1, 0] [2, 2] = Except.ok false :=
  ⟨by decide, by decide, by decide, by decide,
    (C14_less_is_numeric [3, 1, 0] [2, 2] (by decide) (by decide)).1,
    (C14_less_is_numeric [3, 1, 0] [2, 2] (by decide) (by decide)).2.1⟩

/-! ## `operator++` -/

theorem getD_set (x : BigUnsigned) (i v k : Nat) (hi : i < x.length) :
    (x.set i v).getD k 0 = if k = i then v else x.getD k 0 := by
  by_cases hk : k = i
  · subst hk
    simp [List.getD, hi]
  · simp [List.getD, hk, List.getElem?_set_ne (Ne.symm hk)]

theorem well_formed_set (x : BigUnsigned) (i v : Nat) (hv : v < 256) (h : well_formed x) :
    well_formed (x.set i v) := by
  intro b hb
  rcases List.mem_or_eq_of_mem_set hb with h1 | h1
  · exact h b h1
  · omega

theorem value_set (x : BigUnsigned) (i v : Nat) (hi : i < x.length) :
    value (x.set i v) + 256 ^ i * x.getD i 0 = value x + 256 ^ i * v := by
  induction x generalizing i with
  | nil => simp at hi
  | cons b rest ih =>
    cases i with
    | zero =>
      simp only [List.set_cons_zero, value, pow_zero, List.getD_cons_zero]
      omega
    | succ i =>
      have h := ih i (by simpa using hi)
      simp only [List.set_cons_succ, value, List.getD_cons_succ, pow_succ]
      have e1 : 256 ^ i * 256 * rest.getD i 0 = 256 * (256 ^ i * rest.getD i 0) := by ring
      have e2 : 256 ^ i * 256 * v = 256 * (256 ^ i * v) := by ring
      rw [e1, e2]
      omega

theorem increment_loop_nonzero (fuel : Nat) (x : BigUnsigned) (i val : Nat) (hval : val ≠ 0) :
    increment_loop (fuel + 1) x i val = Except.ok x := by
  rw [increment_loop, if_neg hval]
  rfl

theorem increment_loop_spec (fuel : Nat) (x : BigUnsigned) (i : Nat) (hi : i < x.length)
    (hfuel : x.length - i ≤ fuel) (hwf : well_formed x) :
    ((∀ k, i < k → k < x.length → x.getD k 0 = 255)
        ∧ increment_loop fuel x i 0
            = Except.error (Fault.todo_fail "Throw error, size too little"))
    ∨ ((∃ k, i < k ∧ k < x.length ∧ x.getD k 0 ≠ 255)
        ∧ ∃ y, increment_loop fuel x i 0 = Except.ok y ∧ y.length = x.length
            ∧ well_formed y ∧ value y = value x + 256 ^ (i + 1)) := by
  induction fuel generalizing x i with
  | zero => omega
  | succ fuel ih =>
    by_cases hend : i + 1 = x.length
    · left
      refine ⟨fun k h1 h2 => by omega, ?_⟩
      rw [increment_loop, if_pos rfl, if_pos hend]
      rfl
    · have hlt : i + 1 < x.length := by omega
      have hb := getD_lt_of_well_formed x (i + 1) hwf
      have hstep : increment_loop (fuel + 1) x i 0
          = increment_loop fuel (x.set (i + 1) ((x.getD (i + 1) 0 + 1) % 256)) (i + 1)
              ((x.getD (i + 1) 0 + 1) % 256) := by
        rw [increment_loop, if_pos rfl, if_neg hend, read_of_lt x (i + 1) hlt, bind_ok,
          write_of_lt x (i + 1) _ hlt, bind_ok]
      have hset := value_set x (i + 1) ((x.getD (i + 1) 0 + 1) % 256) hlt
      have hp : 256 ^ (i + 1 + 1) = 256 ^ (i + 1) * 256 := pow_succ _ _
      by_cases h255 : x.getD (i + 1) 0 = 255
      · have hv : (x.getD (i + 1) 0 + 1) % 256 = 0 := by omega
        rw [hv] at hstep hset
        have hlen : (x.set (i + 1) 0).length = x.length := List.length_set _ _ _
        have hwf1 : well_formed (x.set (i + 1) 0) := well_formed_set x (i + 1) 0 (by omega) hwf
        rcases ih (x.set (i + 1) 0) (i + 1) (by omega) (by omega) hwf1 with
          ⟨hall, herr⟩ | ⟨⟨k, hk1, hk2, hk3⟩, y, hy, hylen, hywf, hyval⟩
        · left
          refine ⟨?_, by rw [hstep, herr]⟩
          intro k h1 h2
          by_cases hk : k = i + 1
          · rw [hk]
            exact h255
          · have := hall k (by omega) (by omega)
            rwa [getD_set x (i + 1) 0 k hlt, if_neg hk] at this
        · right
          refine ⟨⟨k, by omega, by omega, ?_⟩, y, by rw [hstep, hy], by omega, hywf, ?_⟩
          · rwa [getD_set x (i + 1) 0 k hlt, if_neg (by omega)] at hk3
          · rw [hyval, hp]
            rw [h255] at hset
            omega
      · right
        have hv : (x.getD (i + 1) 0 + 1) % 256 = x.getD (i + 1) 0 + 1 := by omega
        rw [hv] at hstep hset
        have hfuel1 : ∃ f, fuel = f + 1 := ⟨fuel - 1, by omega⟩
        obtain ⟨f, rfl⟩ := hfuel1
        refine ⟨⟨i + 1, by omega, hlt, h255⟩, x.set (i + 1) (x.getD (i + 1) 0 + 1), ?_,
          List.length_set _ _ _, well_formed_set x (i + 1) _ (by omega) hwf, ?_⟩
        · rw [hstep, increment_loop_nonzero f _ _ _ (by omega)]
        · rw [Nat.mul_succ] at hset
          omega

theorem increment_spec (x : BigUnsigned) (hlen : 1 ≤ x.length) (hwf : well_formed x) :
    ((∀ b ∈ x, b = 255)
        ∧ increment x = Except.error (Fault.todo_fail "Throw error, size too little"))
    ∨ ((∃ b ∈ x, b ≠ 255)
        ∧ ∃ y, increment x = Except.ok y ∧ y.length = x.length
            ∧ well_formed y ∧ value y = value x + 1) := by
  have h0 : 0 < x.length := hlen
  have hb := getD_lt_of_well_formed x 0 hwf
  have hstep : increment x
      = increment_loop (x.length + 1) (x.set 0 ((x.getD 0 0 + 1) % 256)) 0
          ((x.getD 0 0 + 1) % 256) := by
    rw [increment, read_of_lt x 0 h0, bind_ok, write_of_lt x 0 _ h0, bind_ok, List.length_set]
  have hset := value_set x 0 ((x.getD 0 0 + 1) % 256) h0
  have hmem : ∀ k, k < x.length → x.getD k 0 ∈ x := by
    intro k hk
    have : x.getD k 0 = x[k] := by simp [List.getD, List.getElem?_eq_getElem hk]
    rw [this]
    exact List.getElem_mem hk
  by_cases h255 : x.getD 0 0 = 255
  · have hv : (x.getD 0 0 + 1) % 256 = 0 := by omega
    rw [hv] at hstep hset
    have hwf1 : well_formed (x.set 0 0) := well_formed_set x 0 0 (by omega) hwf
    have hlen1 : (x.set 0 0).length = x.length := List.length_set _ _ _
    rcases increment_loop_spec (x.length + 1) (x.set 0 0) 0 (by omega) (by omega) hwf1 with
      ⟨hall, herr⟩ | ⟨⟨k, hk1, hk2, hk3⟩, y, hy, hylen, hywf, hyval⟩
    · left
      refine ⟨?_, by rw [hstep, herr]⟩
      intro b hbx
      obtain ⟨k, hk, rfl⟩ := List.mem_iff_getElem.mp hbx
      have hg : x.getD k 0 = x[k] := by simp [List.getD, List.getElem?_eq_getElem hk]
      rw [← hg]
      by_cases hk0 : k = 0
      · rw [hk0]
        exact h255
      · have := hall k (by omega) (by omega)
        rwa [getD_set x 0 0 k h0, if_neg hk0] at this
    · right
      refine ⟨⟨x.getD k 0, hmem k (by omega), ?_⟩, y, by rw [hstep, hy], by omega, hywf, ?_⟩
      · rwa [getD_set x 0 0 k h0, if_neg (by omega)] at hk3
      · rw [hyval]
        rw [h255] at hset
        omega
  · right
    have hv : (x.getD 0 0 + 1) % 256 = x.getD 0 0 + 1 := by omega
    rw [hv] at hstep hset
    refine ⟨⟨x.getD 0 0, hmem 0 h0, h255⟩, x.set 0 (x.getD 0 0 + 1), ?_,
      List.length_set _ _ _, well_formed_set x 0 _ (by omega) hwf, ?_⟩
    · rw [hstep, increment_loop_nonzero _ _ _ _ (by omega)]
    · omega

/-- C16: for a `BigUnsigned` of at least one byte, with bytes below 256: when
not all bytes are 255, `operator++` ends without fault (so it reaches neither the
branch "size too little" nor an index outside the array), keeps the size and
adds one to the little-endian value; and it reaches the branch "size too
little" exactly when all bytes are 255. -/
theorem C16_increment (x : BigUnsigned) (hlen : 1 ≤ x.length) (hwf : well_formed x) :
    ((∃ b ∈ x, b ≠ 255) →
        ∃ y, increment x = Except.ok y ∧ y.length = x.length ∧ well_formed y
          ∧ value y = value x + 1)
    ∧ (increment x = Except.error (Fault.todo_fail "Throw error, size too little")
        ↔ ∀ b ∈ x, b = 255) := by
  rcases increment_spec x hlen hwf with ⟨hall, herr⟩ | ⟨⟨b, hb, hne⟩, y, hy, hylen, hywf, hyval⟩
  · refine ⟨?_, fun _ => hall, fun _ => herr⟩
    rintro ⟨b, hb, hne⟩
    exact absurd (hall b hb) hne
  · refine ⟨fun _ => ⟨y, hy, hylen, hywf, hyval⟩, ?_, ?_⟩
    · intro herr
      rw [hy] at herr
      exact Except.noConfusion herr
    · intro hall
      exact absurd (hall b hb) hne

/-- C16 at concrete inputs: the carry runs through two bytes of `[255, 255, 3]`,
and `[255, 255]` reaches the branch "size too little". -/
theorem C16_increment_witness :
    1 ≤ [255, 255, 3].length ∧ well_formed [255, 255, 3]
    ∧ increment [255, 255, 3] = Except.ok [0, 0, 4]
    ∧ value [0, 0, 4] = value [255, 255, 3] + 1
    ∧ increment [255, 255]
        = Except.error (Fault.todo_fail "Throw error, size too little") :=
  ⟨by decide, by decide, rfl, by decide,
    (C16_increment [255, 255] (by decide) (by decide)).2.mpr (by decide)⟩

/-! ## `operator<<=` -/

theorem take_set_of_le (l : List Nat) (m n a : Nat) (h : m ≤ n) :
    (l.set n a).take m = l.take m := by
  induction l generalizing m n with
  | nil => simp
  | cons b rest ih =>
    cases m with
    | zero => simp
    | succ m =>
      cases n with
      | zero => omega
      | succ n => simp [ih m n (by omega)]

theorem drop_set_self (l : List Nat) (n a : Nat) (h : n < l.length) :
    (l.set n a).drop n = a :: l.drop (n + 1) := by
  induction l generalizing n with
  | nil => simp at h
  | cons b rest ih =>
    cases n with
    | zero => simp
    | succ n => simpa using ih n (by simpa using h)

theorem take_succ_getD (l : List Nat) (i : Nat) (h : i < l.length) :
    l.take (i + 1) = l.take i ++ [l.getD i 0] := by
  rw [List.take_succ, getElem?_of_lt l i h]
  rfl

theorem set_length_append (a c : List Nat) (b v : Nat) :
    (a ++ b :: c).set a.length v = a ++ v :: c := by
  induction a with
  | nil => rfl
  | cons h t ih => simp [ih]

theorem getD_length_append (a c : List Nat) (b : Nat) :
    (a ++ b :: c).getD a.length 0 = b := by
  induction a with
  | nil => rfl
  | cons h t ih => simpa using ih

theorem shift_move_spec (bytes i : Nat) (x : BigUnsigned) (h : i + bytes ≤ x.length) :
    shift_move bytes i x = Except.ok (x.take bytes ++ x.take i ++ x.drop (i + bytes)) := by
  induction i generalizing x with
  | zero =>
    rw [shift_move, pure_eq_ok]
    simp
  | succ i ih =>
    have hr : i < x.length := by omega
    have hw : i + bytes < x.length := by omega
    rw [shift_move, read_of_lt x i hr, bind_ok, write_of_lt x (i + bytes) _ hw, bind_ok,
      ih _ (by rw [List.length_set]; omega), take_set_of_le x bytes (i + bytes) _ (by omega),
      take_set_of_le x i (i + bytes) _ (by omega), drop_set_self x (i + bytes) _ hw,
      take_succ_getD x i hr, show i + 1 + bytes = i + bytes + 1 by omega]
    simp

theorem shift_zero_spec (r : Nat) (a z c : List Nat) (hz : z.length = r) :
    shift_zero r a.length (a ++ z ++ c) = Except.ok (a ++ List.replicate r 0 ++ c) := by
  induction r generalizing a z with
  | zero =>
    have : z = [] := List.length_eq_zero.mp hz
    subst this
    rfl
  | succ r ih =>
    cases z with
    | nil => simp at hz
    | cons z0 z1 =>
      have hlt : a.length < (a ++ z0 :: z1 ++ c).length := by simp
      have hset : (a ++ z0 :: z1 ++ c).set a.length 0 = (a ++ [0]) ++ z1 ++ c := by
        simp
      have hih := ih (a ++ [0]) z1 (by simpa using hz)
      rw [List.length_append, List.length_singleton] at hih
      rw [shift_zero, write_of_lt _ _ _ hlt, bind_ok, hset, hih]
      simp [List.replicate_succ]

theorem shift_bits_spec (bits nbits : Nat) (l a : List Nat) (carry : Nat) :
    shift_bits bits nbits l.length a.length carry (a ++ l)
      = Except.ok (a ++ shifted_bytes bits nbits carry l) := by
  induction l generalizing a carry with
  | nil => simp [shift_bits, shifted_bytes, pure_eq_ok]
  | cons v rest ih =>
    have hlt : a.length < (a ++ v :: rest).length := by simp
    have hih := ih (a ++ [((v <<< bits) ||| carry) % 256]) ((v >>> nbits) % 256)
    rw [List.length_append, List.length_singleton, List.append_assoc, List.singleton_append]
      at hih
    rw [List.length_cons, shift_bits, read_of_lt _ _ hlt, bind_ok, getD_length_append,
      write_of_lt _ _ _ hlt, bind_ok, set_length_append, hih, shifted_bytes]
    simp

theorem shifted_bytes_length (bits nbits : Nat) (l : List Nat) (carry : Nat) :
    (shifted_bytes bits nbits carry l).length = l.length := by
  induction l generalizing carry with
  | nil => rfl
  | cons v rest ih => simp [shifted_bytes, ih]

theorem shifted_bytes_well_formed (bits nbits : Nat) (l : List Nat) (carry : Nat) :
    well_formed (shifted_bytes bits nbits carry l) := by
  induction l generalizing carry with
  | nil => simp [shifted_bytes, well_formed]
  | cons v rest ih =>
    rw [shifted_bytes, well_formed_cons]
    exact ⟨Nat.mod_lt _ (by norm_num), ih _⟩

theorem shifted_bytes_zero (l : List Nat) (h : well_formed l) : shifted_bytes 0 8 0 l = l := by
  induction l with
  | nil => rfl
  | cons v rest ih =>
    have hv := ((well_formed_cons v rest).mp h).1
    have h1 : ((v <<< 0) ||| 0) % 256 = v := by
      simp only [Nat.shiftLeft_zero, Nat.or_zero]
      omega
    have h2 : (v >>> 8) % 256 = 0 := by
      rw [Nat.shiftRight_eq_div_pow]
      omega
    rw [shifted_bytes, h1, h2, ih ((well_formed_cons v rest).mp h).2]

theorem shift_or_eq (v bits carry : Nat) (hc : carry < 2 ^ bits) :
    (v <<< bits) ||| carry = v * 2 ^ bits + carry := by
  rw [Nat.shiftLeft_eq, Nat.mul_comm, ← Nat.mul_add_lt_is_or hc]

theorem shift_carry_eq (v bits carry : Nat) (hbits : bits ≤ 7) (hv : v < 256)
    (hc : carry < 2 ^ bits) :
    (v >>> (8 - bits)) % 256 = (v * 2 ^ bits + carry) / 256
    ∧ (v >>> (8 - bits)) % 256 < 2 ^ bits := by
  rw [Nat.shiftRight_eq_div_pow]
  interval_cases bits <;> norm_num at hc ⊢ <;> omega

theorem mod_mul_256 (T R M : Nat) :
    (T + 256 * R) % (256 * M) = T % 256 + 256 * ((R + T / 256) % M) := by
  have e1 : (T + 256 * R) % 256 = T % 256 := by omega
  have e2 : (T + 256 * R) / 256 = R + T / 256 := by omega
  rw [Nat.mod_mul, e1, e2]

theorem value_shifted_bytes (bits : Nat) (hbits : bits ≤ 7) (l : List Nat) (carry : Nat)
    (hl : well_formed l) (hc : carry < 2 ^ bits) :
    value (shifted_bytes bits (8 - bits) carry l)
      = (value l * 2 ^ bits + carry) % 256 ^ l.length := by
  induction l generalizing carry with
  | nil =>
    simp [shifted_bytes, value, Nat.mod_one]
  | cons v rest ih =>
    have hv := ((well_formed_cons v rest).mp hl).1
    have hrest := ((well_formed_cons v rest).mp hl).2
    obtain ⟨hq, hlt⟩ := shift_carry_eq v bits carry hbits hv hc
    rw [shifted_bytes, value, ih _ hrest hlt, shift_or_eq v bits carry hc, value,
      List.length_cons, pow_succ, hq, Nat.mul_comm (256 ^ rest.length) 256,
      show (v + 256 * value rest) * 2 ^ bits + carry
        = (v * 2 ^ bits + carry) + 256 * (value rest * 2 ^ bits) by ring,
      mod_mul_256]

theorem shift_left_assign_eq (x : BigUnsigned) (n : Nat) (hsize : x.length < size_t_range)
    (hn : n / 8 ≤ x.length) :
    shift_left_assign x n
      = Except.ok (shifted_bytes (n % 8) (8 - n % 8) 0
          (List.replicate (n / 8) 0 ++ x.take (x.length - n / 8))) := by
  have hbits : n &&& 7 = n % 8 := Nat.and_pow_two_sub_one_eq_mod n 3
  have hbytes : n >>> 3 = n / 8 := Nat.shiftRight_eq_div_pow n 3
  have hold : (x.length + size_t_range - n / 8) % size_t_range = x.length - n / 8 := by
    unfold size_t_range at hsize ⊢
    omega
  have hmove := shift_move_spec (n / 8) (x.length - n / 8) x (by omega)
  rw [show x.length - n / 8 + n / 8 = x.length by omega, List.drop_length,
    List.append_nil] at hmove
  have hzero := shift_zero_spec (n / 8) [] (x.take (n / 8)) (x.take (x.length - n / 8))
    (by rw [List.length_take]; omega)
  have hlen : (List.replicate (n / 8) 0 ++ x.take (x.length - n / 8)).length = x.length := by
    rw [List.length_append, List.length_replicate, List.length_take]
    omega
  have hshift := shift_bits_spec (n % 8) (8 - n % 8)
    (List.replicate (n / 8) 0 ++ x.take (x.length - n / 8)) [] 0
  simp only [List.nil_append, List.length_nil] at hzero hshift
  rw [shift_left_assign, hbits, hbytes, hold, hmove, bind_ok, hzero, bind_ok]
  exact hshift

theorem shift_left_assign_spec (x : BigUnsigned) (n : Nat) (hwf : well_formed x)
    (hsize : x.length < size_t_range) (hn : n / 8 ≤ x.length) :
    ∃ y, shift_left_assign x n = Except.ok y ∧ y.length = x.length ∧ well_formed y
      ∧ value y = (value x * 2 ^ n) % 2 ^ (8 * x.length) := by
  have hlen : (List.replicate (n / 8) 0 ++ x.take (x.length - n / 8)).length = x.length := by
    rw [List.length_append, List.length_replicate, List.length_take]
    omega
  have hwf2 : well_formed (List.replicate (n / 8) 0 ++ x.take (x.length - n / 8)) := by
    rw [well_formed_append]
    refine ⟨?_, well_formed_take x _ hwf⟩
    intro b hb
    rw [(List.mem_replicate.mp hb).2]
    norm_num
  refine ⟨_, shift_left_assign_eq x n hsize hn, ?_, shifted_bytes_well_formed _ _ _ _, ?_⟩
  · rw [shifted_bytes_length, hlen]
  · have hmod : n % 8 ≤ 7 := by omega
    rw [value_shifted_bytes (n % 8) hmod _ 0 hwf2 (Nat.pos_pow_of_pos _ (by norm_num)), hlen,
      value_append, value_replicate_zero, List.length_replicate, Nat.zero_add, Nat.add_zero,
      value_take_mod x _ hwf, ← Nat.mul_mod_mul_left, ← pow_add,
      show n / 8 + (x.length - n / 8) = x.length by omega, Nat.mod_mul_mod]
    have h2 : (2 : Nat) ^ (8 * x.length) = 256 ^ x.length := by
      rw [pow_mul]
      norm_num
    have h3 : (2 : Nat) ^ n = 256 ^ (n / 8) * 2 ^ (n % 8) := by
      conv_lhs => rw [← Nat.div_add_mod n 8]
      rw [pow_add, pow_mul]
      norm_num
    rw [h2, h3]
    congr 1
    ring

/-- C15: for a `BigUnsigned` with bytes below 256 and a shift `n` with
`n / 8` at most the size, `operator<<=` ends without fault, keeps the size and
leaves the value `(v * 2 ^ n) mod 2 ^ (8 * size)`, where `v` is the value before,
also when `n` is a multiple of 8; with `n = 0` the bytes are unchanged. -/
theorem C15_shift_left_assign (x : BigUnsigned) (n : Nat) (hwf : well_formed x)
    (hsize : x.length < size_t_range) (hn : n / 8 ≤ x.length) :
    ∃ y, shift_left_assign x n = Except.ok y
      ∧ y.length = x.length
      ∧ well_formed y
      ∧ value y = (value x * 2 ^ n) % 2 ^ (8 * x.length)
      ∧ (n = 0 → y = x) := by
  obtain ⟨y, hy, hlen, hywf, hval⟩ := shift_left_assign_spec x n hwf hsize hn
  refine ⟨y, hy, hlen, hywf, hval, ?_⟩
  intro h0
  subst h0
  have h := shift_left_assign_eq x 0 hsize hn
  rw [hy] at h
  have hy2 := Except.ok.inj h
  rw [hy2]
  simp only [Nat.zero_div, Nat.zero_mod, List.replicate_zero, List.nil_append, Nat.sub_zero,
    List.take_length]
  exact shifted_bytes_zero x hwf

/-- C15 at concrete inputs: a shift by 12 (one byte and four bits), a shift by a
multiple of 8, and a shift by the whole width. -/
theorem C15_shift_left_assign_witness :
    well_formed [255, 129, 3, 4] ∧ [255, 129, 3, 4].length < size_t_range
    ∧ 12 / 8 ≤ [255, 129, 3, 4].length
    ∧ shift_left_assign [255, 129, 3, 4] 12 = Except.ok [0, 240, 31, 56]
    ∧ value [0, 240, 31, 56] = (value [255, 129, 3, 4] * 2 ^ 12) % 2 ^ (8 * 4)
    ∧ shift_left_assign [255, 129, 3, 4] 8 = Except.ok [0, 255, 129, 3]
    ∧ ∃ y, shift_left_assign [255, 129, 3, 4] 32 = Except.ok y ∧ value y = 0 :=
  ⟨by decide, by decide, by decide, by rfl, by decide, by rfl,
    by
      obtain ⟨y, hy, _, _, hval, _⟩ := C15_shift_left_assign [255, 129, 3, 4] 32 (by decide)
        (by decide) (by decide)
      exact ⟨y, hy, by rw [hval]; decide⟩⟩

/-! ## `gemv_n_vector` -/

theorem getD_set_rat (l : List ℚ) (i k : Nat) (v : ℚ) (hi : i < l.length) :
    (l.set i v).getD k 0 = if k = i then v else l.getD k 0 := by
  by_cases hk : k = i
  · subst hk
    simp [List.getD, hi]
  · simp [List.getD, hk, List.getElem?_set_ne (Ne.symm hk)]

theorem set_getD_self (l : List ℚ) (k : Nat) : l.set k (l.getD k 0) = l := by
  induction l generalizing k with
  | nil => rfl
  | cons a rest ih =>
    cases k with
    | zero => rfl
    | succ k => simpa using ih k

theorem foldl_set_spec (pos : Nat → Nat) (val : Nat → ℚ) (y : List ℚ) (t : Nat)
    (hinj : ∀ i j, i < t → j < t → pos i = pos j → i = j)
    (hpos : ∀ i, i < t → pos i < y.length) :
    ((List.range t).foldl (fun acc i => acc.set (pos i) (val i)) y).length = y.length
    ∧ (∀ i, i < t →
        ((List.range t).foldl (fun acc i => acc.set (pos i) (val i)) y).getD (pos i) 0 = val i)
    ∧ (∀ k, (∀ i, i < t → k ≠ pos i) →
        ((List.range t).foldl (fun acc i => acc.set (pos i) (val i)) y).getD k 0
          = y.getD k 0) := by
  induction t with
  | zero => exact ⟨rfl, fun i hi => absurd hi (Nat.not_lt_zero i), fun k _ => rfl⟩
  | succ t ih =>
    obtain ⟨hlen, hat, hother⟩ := ih (fun i j hi hj => hinj i j (by omega) (by omega))
      (fun i hi => hpos i (by omega))
    have hpt : pos t < ((List.range t).foldl (fun acc i => acc.set (pos i) (val i)) y).length := by
      rw [hlen]
      exact hpos t (by omega)
    rw [List.range_succ, List.foldl_append, List.foldl_cons, List.foldl_nil]
    refine ⟨by rw [List.length_set, hlen], ?_, ?_⟩
    · intro i hi
      rw [getD_set_rat _ _ _ _ hpt]
      by_cases hit : i = t
      · rw [hit, if_pos rfl]
      · have hne : pos i ≠ pos t := fun h => hit (hinj i t hi (by omega) h)
        rw [if_neg hne]
        exact hat i (by omega)
    · intro k hk
      rw [getD_set_rat _ _ _ _ hpt, if_neg (hk t (by omega))]
      exact hother k (fun i hi => hk i (by omega))

theorem foldl_set_same (pos : Nat → Nat) (y : List ℚ) (t : Nat) :
    (List.range t).foldl (fun acc i => acc.set (pos i) (y.getD (pos i) 0)) y = y := by
  induction t with
  | zero => rfl
  | succ t ih =>
    rw [List.range_succ, List.foldl_append, List.foldl_cons, List.foldl_nil, ih, set_getD_self]

theorem stride_position_injective (count : Nat) (stride : Int) (hs : stride ≠ 0) (i j : Nat)
    (hi : i < count) (hj : j < count)
    (h : stride_position count stride i = stride_position count stride j) : i = j := by
  have hpos : 0 < stride.natAbs := Int.natAbs_pos.mpr hs
  unfold stride_position at h
  by_cases hsign : 0 < stride
  · rw [if_pos hsign, if_pos hsign] at h
    exact Nat.eq_of_mul_eq_mul_right hpos h
  · rw [if_neg hsign, if_neg hsign] at h
    have := Nat.eq_of_mul_eq_mul_right hpos h
    omega

theorem stride_position_lt (count : Nat) (stride : Int) (len i : Nat) (hi : i < count)
    (hlen : 1 + (count - 1) * stride.natAbs ≤ len) : stride_position count stride i < len := by
  have h1 : i * stride.natAbs ≤ (count - 1) * stride.natAbs :=
    Nat.mul_le_mul_right _ (by omega)
  have h2 : (count - 1 - i) * stride.natAbs ≤ (count - 1) * stride.natAbs :=
    Nat.mul_le_mul_right _ (by omega)
  unfold stride_position
  split <;> omega

theorem gemv_row_eq_sum (row x : List ℚ) (n : Int) :
    gemv_row row x n
      = Finset.sum (Finset.range row.length)
          (fun j => row.getD j 0 * x.getD (stride_position row.length n j) 0) := by
  unfold gemv_row
  generalize row.length = c
  generalize (fun j => row.getD j 0 * x.getD (stride_position c n j) 0) = f
  induction c with
  | zero => simp
  | succ c ih => rw [List.sum_range_succ, Finset.sum_range_succ, ih]

theorem gemv_test1_close :
    AllClose (1 / 10 ^ 12) blas_gemv_n_vector1.run blas_gemv_n_vector1.refy = true := by
  simp only [AllClose, GemvTest.run, blas_gemv_n_vector1, gemv_n_vector, gemv_row,
    stride_position, List.length_cons, List.length_nil, List.range_succ, List.range_zero]
  norm_num [List.getD, List.range_succ, List.range_zero, abs_le]

theorem gemv_test2_close :
    AllClose (1 / 10 ^ 12) blas_gemv_n_vector2.run blas_gemv_n_vector2.refy = true := by
  simp only [AllClose, GemvTest.run, blas_gemv_n_vector2, gemv_n_vector, gemv_row,
    stride_position, List.length_cons, List.length_nil, List.range_succ, List.range_zero]
  norm_num [List.getD, List.range_succ, List.range_zero, abs_le]

theorem gemv_test3_close :
    AllClose (1 / 10 ^ 12) blas_gemv_n_vector3.run blas_gemv_n_vector3.refy = true := by
  simp only [AllClose, GemvTest.run, blas_gemv_n_vector3, gemv_n_vector, gemv_row,
    stride_position, List.length_cons, List.length_nil, List.range_succ, List.range_zero]
  norm_num [List.getD, List.range_succ, List.range_zero, abs_le]

theorem gemv_test4_close :
    AllClose (1 / 10 ^ 12) blas_gemv_n_vector4.run blas_gemv_n_vector4.refy = true := by
  simp only [AllClose, GemvTest.run, blas_gemv_n_vector4, gemv_n_vector, gemv_row,
    stride_position, List.length_cons, List.length_nil, List.range_succ, List.range_zero]
  norm_num [List.getD, List.range_succ, List.range_zero, abs_le]

theorem gemv_test5_close :
    AllClose (1 / 10 ^ 12) blas_gemv_n_vector5.run blas_gemv_n_vector5.refy = true := by
  simp only [AllClose, GemvTest.run, blas_gemv_n_vector5, gemv_n_vector, gemv_row,
    stride_position, List.length_cons, List.length_nil, List.range_succ, List.range_zero]
  norm_num [List.getD, List.range_succ, List.range_zero, abs_le]

theorem gemv_test6_close :
    AllClose (1 / 10 ^ 12) blas_gemv_n_vector6.run blas_gemv_n_vector6.refy = true := by
  simp only [AllClose, GemvTest.run, blas_gemv_n_vector6, gemv_n_vector, gemv_row,
    stride_position, List.length_cons, List.length_nil, List.range_succ, List.range_zero]
  norm_num [List.getD, List.range_succ, List.range_zero, abs_le]

/-- C13: for a matrix `A` whose rows have `c` elements, a non-zero stride `m` and
a vector `y` of at least `1 + (r - 1) * |m|` elements, where `r` is the number of
rows, `gemv_n_vector(alpha, A, x, n, beta, y, m)` keeps the length of `y`, stores
`alpha * sum_{j<c} A[i][j] * x[q(j)] + beta * y[p(i)]` at the position `p(i)` of
every row `i`, leaves every other element of `y` as it was, and leaves `y` as it
was when `alpha = 0` and `beta = 1`; over exact arithmetic, on the data of each
of the six tests the result is within `10^-12` of the reference vector of the
test, element by element. -/
theorem C13_gemv_n_vector (alpha beta : ℚ) (A : List (List ℚ)) (x y : List ℚ) (n m : Int)
    (c : Nat) (hm : m ≠ 0) (hA : ∀ row ∈ A, row.length = c)
    (hy : 1 + (A.length - 1) * m.natAbs ≤ y.length) :
    (gemv_n_vector alpha A x n beta y m).length = y.length
    ∧ (∀ i, i < A.length →
        (gemv_n_vector alpha A x n beta y m).getD (stride_position A.length m i) 0
          = alpha * Finset.sum (Finset.range c)
                (fun j => (A.getD i []).getD j 0 * x.getD (stride_position c n j) 0)
            + beta * y.getD (stride_position A.length m i) 0)
    ∧ (∀ k, (∀ i, i < A.length → k ≠ stride_position A.length m i) →
        (gemv_n_vector alpha A x n beta y m).getD k 0 = y.getD k 0)
    ∧ (alpha = 0 → beta = 1 → gemv_n_vector alpha A x n beta y m = y)
    ∧ AllClose (1 / 10 ^ 12) blas_gemv_n_vector1.run blas_gemv_n_vector1.refy = true
    ∧ AllClose (1 / 10 ^ 12) blas_gemv_n_vector2.run blas_gemv_n_vector2.refy = true
    ∧ AllClose (1 / 10 ^ 12) blas_gemv_n_vector3.run blas_gemv_n_vector3.refy = true
    ∧ AllClose (1 / 10 ^ 12) blas_gemv_n_vector4.run blas_gemv_n_vector4.refy = true
    ∧ AllClose (1 / 10 ^ 12) blas_gemv_n_vector5.run blas_gemv_n_vector5.refy = true
    ∧ AllClose (1 / 10 ^ 12) blas_gemv_n_vector6.run blas_gemv_n_vector6.refy = true := by
  obtain ⟨hlen, hat, hother⟩ := foldl_set_spec (stride_position A.length m)
    (fun i => alpha * gemv_row (A.getD i []) x n
      + beta * y.getD (stride_position A.length m i) 0) y A.length
    (fun i j hi hj => stride_position_injective A.length m hm i j hi hj)
    (fun i hi => stride_position_lt A.length m y.length i hi hy)
  refine ⟨hlen, ?_, hother, ?_, gemv_test1_close, gemv_test2_close, gemv_test3_close,
    gemv_test4_close, gemv_test5_close, gemv_test6_close⟩
  · intro i hi
    have hrow : (A.getD i []).length = c := by
      have hmem : A.getD i [] ∈ A := by
        have : A.getD i [] = A[i] := by simp [List.getD, List.getElem?_eq_getElem hi]
        rw [this]
        exact List.getElem_mem hi
      exact hA _ hmem
    have h := hat i hi
    rw [gemv_row_eq_sum, hrow] at h
    exact h
  · intro ha hb
    subst ha
    subst hb
    have h := foldl_set_same (stride_position A.length m) y A.length
    unfold gemv_n_vector
    simpa using h

/-- C13 at the data of the test with negative strides, `n = -2` and `m = -3`:
the length is kept and the element at position 1, which is no `p(i)`, is as it
was. -/
theorem C13_gemv_n_vector_witness :
    (-3 : Int) ≠ 0
    ∧ (∀ row ∈ blas_gemv_n_vector6.A, row.length = 4)
    ∧ 1 + (blas_gemv_n_vector6.A.length - 1) * (-3 : Int).natAbs
        ≤ blas_gemv_n_vector6.y.length
    ∧ blas_gemv_n_vector6.run.length = blas_gemv_n_vector6.y.length
    ∧ blas_gemv_n_vector6.run.getD 1 0 = blas_gemv_n_vector6.y.getD 1 0 :=
  have hm : (-3 : Int) ≠ 0 := by decide
  have hA : ∀ row ∈ blas_gemv_n_vector6.A, row.length = 4 := by
    simp [blas_gemv_n_vector6]
  have hy : 1 + (blas_gemv_n_vector6.A.length - 1) * (-3 : Int).natAbs
      ≤ blas_gemv_n_vector6.y.length := by
    simp [blas_gemv_n_vector6]
  have h := C13_gemv_n_vector blas_gemv_n_vector6.alpha blas_gemv_n_vector6.beta
    blas_gemv_n_vector6.A blas_gemv_n_vector6.x blas_gemv_n_vector6.y (-2) (-3) 4 hm hA hy
  ⟨hm, hA, hy, h.1, h.2.2.1 1 (by
    intro i hi
    have hi3 : i < 3 := hi
    simp only [stride_position, blas_gemv_n_vector6, List.length_cons, List.length_nil]
    norm_num
    omega)⟩

end fetch
